import Mathlib

/-!
Shallow embedding of the dxagent health engine (src/agent/assurance/health.py)
and of the pieces of its collaborators that the verified claims depend on.

The metric store `_data` is a Python dict of dicts whose leaves are metric
ring buffers; it is embedded as an association list with Python dict
semantics (assignment replaces in place or appends, deletion removes the
binding, keys are unique in any store produced by the real program).

The files agent/core/rbuffer.py (Severity, ring buffers, init_rb_dict) and
agent/assurance/symptoms.py (Symptom) are not part of the sources; the few
facts about them that the claims need are modelled from the specification
and are marked as such in their doc comments.
-/

set_option maxHeartbeats 1000000

/-- Association-list lookup, embedding a Python dict read. -/
def dlookup {α : Type} (k : String) : List (String × α) → Option α
  | [] => none
  | (k2, v) :: rest => if k2 = k then some v else dlookup k rest

/-- Association-list write, embedding Python dict assignment: the binding is
replaced in place when the key is present and appended otherwise
(Python dicts keep insertion order). -/
def dinsert {α : Type} (k : String) (v : α) : List (String × α) → List (String × α)
  | [] => [(k, v)]
  | (k2, v2) :: rest =>
      if k2 = k then (k, v) :: rest else (k2, v2) :: dinsert k v rest

/-- Association-list delete, embedding Python del of a dict key: the first
binding of the key is removed (dict keys are unique in Python). -/
def derase {α : Type} (k : String) : List (String × α) → List (String × α)
  | [] => []
  | (k2, v2) :: rest =>
      if k2 = k then rest else (k2, v2) :: derase k rest

/-- Keys of a dict, in insertion order. -/
def dkeys {α : Type} (d : List (String × α)) : List String := d.map Prod.fst

/-- Python dict.update: every binding of the second dict is written into the
first one, left to right. -/
def dupdate {α : Type} (d e : List (String × α)) : List (String × α) :=
  e.foldl (fun acc kv => dinsert kv.1 kv.2 acc) d

/-- In-place modification of the value bound to a key; the source only does
this on keys that are present. -/
def dmodify {α : Type} (k : String) (f : α → α) : List (String × α) → List (String × α)
  | [] => []
  | (k2, v) :: rest =>
      if k2 = k then (k2, f v) :: rest else (k2, v) :: dmodify k f rest

/-- Sample values held by metric ring buffers. The verified claims only ever
inspect string and boolean samples; numeric samples are carried as Int. -/
inductive SVal where
  | str : String → SVal
  | int : Int → SVal
  | bool : Bool → SVal
deriving DecidableEq, Repr

/-- Modelled from the spec: agent/core/rbuffer.py (the ring buffer class) is
not in the sources. Per spec 4.B a ring buffer keeps a bounded ordered
history of samples of one metric; the claims proved here use only append,
emptiness and the most recent sample, so capacity bookkeeping is left out.
Samples are kept oldest first, newest last. -/
structure RB where
  samples : List SVal
deriving DecidableEq, Repr

/-- Most recent sample, none on an empty buffer. The source raises on an
empty buffer; every theorem reading a buffer assumes it non-empty. -/
def RB.top (r : RB) : Option SVal := r.samples.getLast?

/-- Push one sample at the newest end. -/
def RB.push (r : RB) (v : SVal) : RB := ⟨r.samples ++ [v]⟩

/-- A freshly initialised, empty ring buffer. -/
def RB.emptyRB : RB := ⟨[]⟩

/-- Store values: either a metric ring buffer or a nested dictionary. This is
the value shape of the nested `_data` dict of the source. -/
inductive Val where
  | rb : RB → Val
  | dict : List (String × Val) → Val

/-- The metric store `_data`: a dict from path strings to values. -/
abbrev Store := List (String × Val)

/-- View a store value as a dict (the source only does this on dict values). -/
def Val.asDict : Val → List (String × Val)
  | .dict d => d
  | .rb _ => []

/-- Read a nested dict out of a store entry. -/
def getDict (st : List (String × Val)) (k : String) : List (String × Val) :=
  match dlookup k st with
  | some v => v.asDict
  | none => []

/-- Read a ring buffer out of a store entry. -/
def getRB (st : List (String × Val)) (k : String) : RB :=
  match dlookup k st with
  | some (.rb r) => r
  | _ => RB.emptyRB

/-- Follow a chain of dict keys down the store. -/
def getPathDict (st : Store) : List String → List (String × Val)
  | [] => st
  | k :: rest => getPathDict (getDict st k) rest

/-- Read the ring buffer named m inside the nested dict at the given path. -/
def getPathRB (st : Store) (ks : List String) (m : String) : RB :=
  getRB (getPathDict st ks) m

/-- Apply a dict transformation at the end of a chain of dict keys. -/
def modifyPath (ks : List String) (f : List (String × Val) → List (String × Val))
    (st : Store) : Store :=
  match ks with
  | [] => f st
  | k :: rest => dmodify k (fun v => .dict (modifyPath rest f v.asDict)) st

/-- Push a sample onto the ring buffer named m inside the nested dict at the
given path (embedding data of path and metric dot append of x). -/
def pushPathRB (ks : List String) (m : String) (x : SVal) (st : Store) : Store :=
  modifyPath ks
    (fun d => dmodify m (fun v => match v with
      | .rb r => .rb (r.push x)
      | v2 => v2) d) st

/-- Modelled from the spec: agent/assurance/symptoms.py is not in the
sources. A symptom binding carries a name, the graph path it binds to, the
weight of its severity (Severity.weight in the source, a non-negative
integer: green 0, orange 50, red 100 per spec 3) and its compiled rule,
modelled as a pure boolean predicate over a store snapshot (spec 4.E:
evaluation is pure, deterministic, and returns a boolean). -/
structure Symptom where
  name : String
  path : String
  weight : Nat
  check : Store → Bool

/-- The Python class of a subservice object: Node, Baremetal, VM, KBNet or a
plain resource-class Subservice (cpu, mem, net, proc, ...). -/
inductive SClass where
  | node
  | baremetal
  | vm
  | kbnet
  | plain
deriving DecidableEq, Repr

/-- A subservice of the dependency graph, with the fields that
Subservice.init of the source gives every instance. The backend field holds
the hypervisor of a VM or the framework of a KBNet and is empty otherwise.
fullname and path are computed once at construction, as in the source. -/
inductive Subservice where
  | mk : (cls : SClass) → (typ : String) → (name : String) → (backend : String) →
      (impacting : Bool) → (active : Bool) → (health_score : Int) →
      (fullname : String) → (path : String) →
      (symptoms : List Symptom) → (positive_symptoms : List Symptom) →
      (dependencies : List Subservice) → Subservice

def Subservice.cls : Subservice → SClass
  | .mk c _ _ _ _ _ _ _ _ _ _ _ => c

def Subservice.typ : Subservice → String
  | .mk _ t _ _ _ _ _ _ _ _ _ _ => t

def Subservice.name : Subservice → String
  | .mk _ _ n _ _ _ _ _ _ _ _ _ => n

def Subservice.backend : Subservice → String
  | .mk _ _ _ b _ _ _ _ _ _ _ _ => b

def Subservice.impacting : Subservice → Bool
  | .mk _ _ _ _ i _ _ _ _ _ _ _ => i

def Subservice.active : Subservice → Bool
  | .mk _ _ _ _ _ a _ _ _ _ _ _ => a

def Subservice.health_score : Subservice → Int
  | .mk _ _ _ _ _ _ h _ _ _ _ _ => h

def Subservice.fullname : Subservice → String
  | .mk _ _ _ _ _ _ _ f _ _ _ _ => f

def Subservice.path : Subservice → String
  | .mk _ _ _ _ _ _ _ _ p _ _ _ => p

def Subservice.symptoms : Subservice → List Symptom
  | .mk _ _ _ _ _ _ _ _ _ s _ _ => s

def Subservice.positive_symptoms : Subservice → List Symptom
  | .mk _ _ _ _ _ _ _ _ _ _ p _ => p

def Subservice.dependencies : Subservice → List Subservice
  | .mk _ _ _ _ _ _ _ _ _ _ _ d => d

/-- Replace the dependency list of a subservice. -/
def Subservice.withDeps : Subservice → List Subservice → Subservice
  | .mk c t n b i a h f p s ps _, d => .mk c t n b i a h f p s ps d

@[simp] theorem Subservice.cls_mk (c : SClass) (t n b : String) (i a : Bool)
    (h : Int) (f p : String) (s ps : List Symptom) (d : List Subservice) :
    (Subservice.mk c t n b i a h f p s ps d).cls = c := rfl

@[simp] theorem Subservice.typ_mk (c : SClass) (t n b : String) (i a : Bool)
    (h : Int) (f p : String) (s ps : List Symptom) (d : List Subservice) :
    (Subservice.mk c t n b i a h f p s ps d).typ = t := rfl

@[simp] theorem Subservice.name_mk (c : SClass) (t n b : String) (i a : Bool)
    (h : Int) (f p : String) (s ps : List Symptom) (d : List Subservice) :
    (Subservice.mk c t n b i a h f p s ps d).name = n := rfl

@[simp] theorem Subservice.backend_mk (c : SClass) (t n b : String) (i a : Bool)
    (h : Int) (f p : String) (s ps : List Symptom) (d : List Subservice) :
    (Subservice.mk c t n b i a h f p s ps d).backend = b := rfl

@[simp] theorem Subservice.impacting_mk (c : SClass) (t n b : String) (i a : Bool)
    (h : Int) (f p : String) (s ps : List Symptom) (d : List Subservice) :
    (Subservice.mk c t n b i a h f p s ps d).impacting = i := rfl

@[simp] theorem Subservice.active_mk (c : SClass) (t n b : String) (i a : Bool)
    (h : Int) (f p : String) (s ps : List Symptom) (d : List Subservice) :
    (Subservice.mk c t n b i a h f p s ps d).active = a := rfl

@[simp] theorem Subservice.health_score_mk (c : SClass) (t n b : String) (i a : Bool)
    (h : Int) (f p : String) (s ps : List Symptom) (d : List Subservice) :
    (Subservice.mk c t n b i a h f p s ps d).health_score = h := rfl

@[simp] theorem Subservice.fullname_mk (c : SClass) (t n b : String) (i a : Bool)
    (h : Int) (f p : String) (s ps : List Symptom) (d : List Subservice) :
    (Subservice.mk c t n b i a h f p s ps d).fullname = f := rfl

@[simp] theorem Subservice.path_mk (c : SClass) (t n b : String) (i a : Bool)
    (h : Int) (f p : String) (s ps : List Symptom) (d : List Subservice) :
    (Subservice.mk c t n b i a h f p s ps d).path = p := rfl

@[simp] theorem Subservice.symptoms_mk (c : SClass) (t n b : String) (i a : Bool)
    (h : Int) (f p : String) (s ps : List Symptom) (d : List Subservice) :
    (Subservice.mk c t n b i a h f p s ps d).symptoms = s := rfl

@[simp] theorem Subservice.positive_symptoms_mk (c : SClass) (t n b : String) (i a : Bool)
    (h : Int) (f p : String) (s ps : List Symptom) (d : List Subservice) :
    (Subservice.mk c t n b i a h f p s ps d).positive_symptoms = ps := rfl

@[simp] theorem Subservice.dependencies_mk (c : SClass) (t n b : String) (i a : Bool)
    (h : Int) (f p : String) (s ps : List Symptom) (d : List Subservice) :
    (Subservice.mk c t n b i a h f p s ps d).dependencies = d := rfl

/-- The body of the symptom loop of Subservice.update_symptoms: a firing
symptom is appended to the positive symptoms and its weight subtracted from
the score, clamped at 0. -/
def symptom_step (st : Store) (acc : Int × List Symptom) (sym : Symptom) :
    Int × List Symptom :=
  if sym.check st then (max 0 (acc.1 - (sym.weight : Int)), acc.2 ++ [sym])
  else acc

mutual

/-- Transcription of Subservice.update_symptoms (health.py lines 308 to 337):
reset the score to 100, recurse into the dependencies collecting their
positive symptoms and health scores and subtracting the malus of each
impacting child (clamped at 0), then evaluate the node symptoms, each firing
one subtracting its weight (clamped at 0); finally record the node score
under its fullname. Returns the updated node, the flat list of positive
symptoms and the health-score dict. -/
def update_symptoms : Subservice → Store → Subservice × List Symptom × List (String × Int)
  | .mk cls typ name backend imp act _ fn p syms _ deps, st =>
    match update_symptoms_deps deps st [] [] 100 with
    | (deps2, positives0, scores0, score0) =>
      match syms.foldl (symptom_step st) (score0, []) with
      | (score1, pos1) =>
        (.mk cls typ name backend imp act score1 fn p syms pos1 deps2,
         positives0 ++ pos1,
         dinsert fn score1 scores0)

/-- The dependency loop of update_symptoms, threading the accumulated
positive symptoms, health-score dict and parent score left to right. -/
def update_symptoms_deps : List Subservice → Store → List Symptom →
    List (String × Int) → Int →
    List Subservice × List Symptom × List (String × Int) × Int
  | [], _, pos, hsd, score => ([], pos, hsd, score)
  | c :: rest, st, pos, hsd, score =>
    match update_symptoms c st with
    | (c2, p, hs) =>
      let score2 := if c2.impacting then max 0 (score - (100 - c2.health_score))
                    else score
      match update_symptoms_deps rest st (pos ++ p) (dupdate hsd hs) score2 with
      | (rest2, posF, hsdF, scoreF) => (c2 :: rest2, posF, hsdF, scoreF)

end

/-- Transcription of the per-class metric update (the overridden
underscore-update-metrics methods). A VM (health.py lines 841 to 850) sets
its active flag from the most recent sample of
store at hypervisor/vms, name, state compared to the string Running and
pushes the flag onto its own active buffer; a KBNet (lines 875 to 884) does
the same from framework/gnmi, name, status compared to synced. Node and
Baremetal override the method with pass. For the plain resource classes the
source dispatches to per-(host OS, path) translation functions that copy
raw-scope samples into the assurance scope; none of the verified claims
depends on the content of those writes, so they are not modelled. -/
def update_metrics_self (s : Subservice) (st : Store) : Subservice × Store :=
  match s with
  | .mk cls typ name backend imp _ hs fn p syms psyms deps =>
    match cls with
    | .vm =>
      let act2 := decide ((getPathRB st [backend ++ "/vms", name] "state").top
                    = some (SVal.str "Running"))
      let st2 := pushPathRB ["/node/vm", name, "/node/vm"] "active" (SVal.bool act2) st
      (.mk cls typ name backend imp act2 hs fn p syms psyms deps, st2)
    | .kbnet =>
      let act2 := decide ((getPathRB st [backend ++ "/gnmi", name] "status").top
                    = some (SVal.str "synced"))
      let st2 := pushPathRB ["/node/kb", name, "/node/kb"] "active" (SVal.bool act2) st
      (.mk cls typ name backend imp act2 hs fn p syms psyms deps, st2)
    | _ => (s, st)

mutual

/-- Transcription of Subservice.update_metrics (health.py lines 354 to 363):
update the metrics of this subservice, then stop if the subservice is not
active, otherwise recurse into the dependencies. Besides the updated node
and store it returns the list of fullnames whose own metric update ran, as
the refresh trace of the walk. -/
def update_metrics : Subservice → Store → Subservice × Store × List String
  | .mk cls typ name backend imp act hs fn p syms psyms deps, st =>
    match update_metrics_self (.mk cls typ name backend imp act hs fn p syms psyms deps) st with
    | (s2, st2) =>
      if s2.active then
        match update_metrics_list deps st2 with
        | (deps2, st3, tr) => (s2.withDeps deps2, st3, s2.fullname :: tr)
      else (s2, st2, [s2.fullname])

/-- The dependency loop of update_metrics, left to right. -/
def update_metrics_list : List Subservice → Store → List Subservice × Store × List String
  | [], st => ([], st, [])
  | c :: rest, st =>
    match update_metrics c st with
    | (c2, st2, tr1) =>
      match update_metrics_list rest st2 with
      | (rest2, st3, tr2) => (c2 :: rest2, st3, tr1 ++ tr2)

end

mutual

/-- Check that the health score of a subservice and of every node below it
lies between 0 and 100. -/
def scores_ok : Subservice → Bool
  | .mk _ _ _ _ _ _ hs _ _ _ _ deps =>
    decide (0 ≤ hs) && decide (hs ≤ 100) && scores_ok_list deps

/-- List form of scores_ok. -/
def scores_ok_list : List Subservice → Bool
  | [] => true
  | c :: rest => scores_ok c && scores_ok_list rest

end

mutual

/-- All fullnames of a dependency subtree, root first. -/
def all_fullnames : Subservice → List String
  | .mk _ _ _ _ _ _ _ fn _ _ _ deps => fn :: all_fullnames_list deps

/-- List form of all_fullnames. -/
def all_fullnames_list : List Subservice → List String
  | [] => []
  | c :: rest => all_fullnames c ++ all_fullnames_list rest

end

/-- Transcription of Subservice.find_fullname: slash, type, an optional
name key, prefixed by the fullname of the parent. -/
def mk_fullname (typ nm parentFullname : String) : String :=
  let f := "/" ++ typ
  let f2 := if nm ≠ "" then f ++ "[name=" ++ nm ++ "]" else f
  parentFullname ++ f2

/-- Transcription of Subservice.find_path: slash and type, prefixed by the
path of the parent (no name keys). -/
def mk_path (typ parentPath : String) : String :=
  parentPath ++ "/" ++ typ

/-- Transcription of HealthEngine.get_symptoms: the rules whose path equals
the node path, or the node path with the interface suffix appended, are
bound (as fresh Symptom instances) to the node. -/
def get_symptoms (sargs : List Symptom) (p : String) : List Symptom :=
  sargs.filter (fun a => a.path == p || a.path == p ++ "/if")

/-- Modelled from the spec: init_rb_dict (agent/core/rbuffer.py, not in the
sources) builds, per spec 4.B and 4.C, one fresh empty ring buffer per
metric name of the owning subservice class. -/
def init_rb_dict (names : List String) : List (String × Val) :=
  names.map (fun n => (n, Val.rb RB.emptyRB))

/-- The metric group of one subservice class, as Subservice's
init-metrics-rb returns it: the registry names of the class, each bound to a
fresh buffer. The metrics-lookup function abstracts the registry loaded
from metrics.csv (name lists per subservice class). -/
def init_metrics_rb (ml : String → List String) (cls : String) : Val :=
  Val.dict (init_rb_dict (ml cls))

/-- Construct a plain resource-class subservice (Subservice.init with
default arguments): impacting true, active true, score 100, no
dependencies, symptoms bound by path. -/
def mkPlain (sargs : List Symptom) (typ parentFullname parentPath : String) : Subservice :=
  .mk .plain typ "" "" true true 100
    (mk_fullname typ "" parentFullname) (mk_path typ parentPath)
    (get_symptoms sargs (mk_path typ parentPath)) [] []

/-- Transcription of VM.init (health.py lines 827 to 839): the vm node with
its cpu, mem, net, proc children, plus the store initialisation, which
unconditionally rebinds the name entry of the node-vm scope to a fresh dict
and then fills it group by group. -/
def mkVM (sargs : List Symptom) (ml : String → List String)
    (nm hyper parentFullname parentPath : String) (st : Store) : Subservice × Store :=
  let fn := mk_fullname "vm" nm parentFullname
  let p := mk_path "vm" parentPath
  let deps := ["cpu", "mem", "net", "proc"].map (fun d => mkPlain sargs d fn p)
  let node : Subservice := .mk .vm "vm" nm hyper true true 100 fn p
    (get_symptoms sargs p) [] deps
  let st1 := dmodify "/node/vm" (fun v => .dict (dinsert nm (.dict []) v.asDict)) st
  let st2 := modifyPath ["/node/vm", nm] (dinsert "/node/vm" (init_metrics_rb ml "vm")) st1
  let st3 := modifyPath ["/node/vm", nm] (dinsert "/node/vm/net/if" (.dict [])) st2
  let st4 := modifyPath ["/node/vm", nm] (dinsert "/node/vm/proc" (init_metrics_rb ml "proc")) st3
  let st5 := modifyPath ["/node/vm", nm] (dinsert "/node/vm/net" (init_metrics_rb ml "net")) st4
  let st6 := modifyPath ["/node/vm", nm] (dinsert "/node/vm/mem" (init_metrics_rb ml "mem")) st5
  (node, st6)

/-- Transcription of KBNet.init (health.py lines 862 to 873): the kb node
with its proc, mem, net children, plus the store initialisation of the
name entry of the node-kb scope. -/
def mkKBNet (sargs : List Symptom) (ml : String → List String)
    (nm fw parentFullname parentPath : String) (st : Store) : Subservice × Store :=
  let fn := mk_fullname "kb" nm parentFullname
  let p := mk_path "kb" parentPath
  let deps := ["proc", "mem", "net"].map (fun d => mkPlain sargs d fn p)
  let node : Subservice := .mk .kbnet "kb" nm fw true true 100 fn p
    (get_symptoms sargs p) [] deps
  let st1 := dmodify "/node/kb" (fun v => .dict (dinsert nm (.dict []) v.asDict)) st
  let st2 := modifyPath ["/node/kb", nm] (dinsert "/node/kb" (init_metrics_rb ml "kb")) st1
  let st3 := modifyPath ["/node/kb", nm] (dinsert "/node/kb/net/if" (.dict [])) st2
  let st4 := modifyPath ["/node/kb", nm] (dinsert "/node/kb/mem" (init_metrics_rb ml "mem")) st3
  let st5 := modifyPath ["/node/kb", nm] (dinsert "/node/kb/proc" (init_metrics_rb ml "proc")) st4
  (node, st5)

/-- Transcription of Baremetal.init (health.py lines 801 to 814): the bm
node with its cpu, sensors, disks, mem, proc, net children and the
initialisation of the non-list baremetal assurance scopes. -/
def mkBaremetal (sargs : List Symptom) (ml : String → List String)
    (parentFullname parentPath : String) (st : Store) : Subservice × Store :=
  let fn := mk_fullname "bm" "" parentFullname
  let p := mk_path "bm" parentPath
  let deps := ["cpu", "sensors", "disks", "mem", "proc", "net"].map
    (fun d => mkPlain sargs d fn p)
  let node : Subservice := .mk .baremetal "bm" "" "" true true 100 fn p
    (get_symptoms sargs p) [] deps
  let st1 := dinsert "/node/bm/net/if" (.dict []) st
  let st2 := dinsert "/node/bm/net" (init_metrics_rb ml "net") st1
  let st3 := dinsert "/node/bm/mem" (init_metrics_rb ml "mem") st2
  let st4 := dinsert "/node/bm/proc" (init_metrics_rb ml "proc") st3
  (node, st4)

/-- Transcription of Node.init (health.py lines 773 to 775): a node whose
only initial dependency is one Baremetal subservice. -/
def mkNode (sargs : List Symptom) (ml : String → List String)
    (nm : String) (st : Store) : Subservice × Store :=
  let fn := mk_fullname "node" nm ""
  let p := mk_path "node" ""
  let r := mkBaremetal sargs ml fn p st
  (.mk .node "node" nm "" true true 100 fn p (get_symptoms sargs p) [] [r.1], r.2)

/-- The health engine state: the compiled rule arguments, the registry name
lists, the dependency graph root, the metric store and the graph-changed
timestamp (an abstract counter standing for time.time). -/
structure Engine where
  sargs : List Symptom
  ml : String → List String
  root : Subservice
  store : Store
  dependency_graph_changed : Nat

/-- Transcription of the graph-related part of HealthEngine.init: the
node-vm and node-kb scopes are bound to empty dicts and the dependency
graph is built with one root node (the symptom and health-score output
entries of the store are held as engine outputs by update_health below). -/
def engine_init (sargs : List Symptom) (ml : String → List String)
    (nodeName : String) (st0 : Store) : Engine :=
  let st1 := dinsert "/node/vm" (.dict []) st0
  let st2 := dinsert "/node/kb" (.dict []) st1
  let r := mkNode sargs ml nodeName st2
  ⟨sargs, ml, r.1, r.2, 0⟩

/-- Transcription of HealthEngine.add_vm and Node.add_vm: append a new VM
child to the root and bump the graph-changed timestamp. -/
def Engine.add_vm (e : Engine) (nm : String) (hyper : String) : Engine :=
  let r := mkVM e.sargs e.ml nm hyper e.root.fullname e.root.path e.store
  { e with root := e.root.withDeps (e.root.dependencies ++ [r.1]),
           store := r.2,
           dependency_graph_changed := e.dependency_graph_changed + 1 }

/-- Transcription of HealthEngine.add_kbnet and Node.add_kbnet. -/
def Engine.add_kbnet (e : Engine) (nm : String) (fw : String) : Engine :=
  let r := mkKBNet e.sargs e.ml nm fw e.root.fullname e.root.path e.store
  { e with root := e.root.withDeps (e.root.dependencies ++ [r.1]),
           store := r.2,
           dependency_graph_changed := e.dependency_graph_changed + 1 }

/-- Transcription of VM.del_metrics (health.py lines 852 to 856): delete the
name entry of the node-vm scope. -/
def vm_del_metrics (nm : String) (st : Store) : Store :=
  dmodify "/node/vm" (fun v => .dict (derase nm v.asDict)) st

/-- Transcription of KBNet.del_metrics (health.py lines 886 to 890). -/
def kb_del_metrics (nm : String) (st : Store) : Store :=
  dmodify "/node/kb" (fun v => .dict (derase nm v.asDict)) st

/-- Transcription of the loop of Node.remove_vm (health.py lines 781 to
786): find the first dependency that is a VM with the given name, run its
del_metrics, remove it from the list and stop. -/
def remove_vm_deps (nm : String) (st : Store) :
    List Subservice → List Subservice × Store
  | [] => ([], st)
  | c :: rest =>
    if c.cls = SClass.vm ∧ c.name = nm then (rest, vm_del_metrics nm st)
    else (c :: (remove_vm_deps nm st rest).1, (remove_vm_deps nm st rest).2)

/-- Transcription of the loop of Node.remove_kbnet (health.py lines 787 to
792). -/
def remove_kb_deps (nm : String) (st : Store) :
    List Subservice → List Subservice × Store
  | [] => ([], st)
  | c :: rest =>
    if c.cls = SClass.kbnet ∧ c.name = nm then (rest, kb_del_metrics nm st)
    else (c :: (remove_kb_deps nm st rest).1, (remove_kb_deps nm st rest).2)

/-- Transcription of HealthEngine.remove_vm: remove the VM child and bump
the graph-changed timestamp. -/
def Engine.remove_vm (e : Engine) (nm : String) : Engine :=
  let r := remove_vm_deps nm e.store e.root.dependencies
  { e with root := e.root.withDeps r.1, store := r.2,
           dependency_graph_changed := e.dependency_graph_changed + 1 }

/-- Transcription of HealthEngine.remove_kbnet. -/
def Engine.remove_kbnet (e : Engine) (nm : String) : Engine :=
  let r := remove_kb_deps nm e.store e.root.dependencies
  { e with root := e.root.withDeps r.1, store := r.2,
           dependency_graph_changed := e.dependency_graph_changed + 1 }

/-- Names of the VM children of a dependency list, in list order (the source
collects them into a Python set by one pass over root.dependencies). -/
def vm_child_names (deps : List Subservice) : List String :=
  (deps.filter (fun c => c.cls == SClass.vm)).map Subservice.name

/-- Names of the KBNet children of a dependency list. -/
def kb_child_names (deps : List Subservice) : List String :=
  (deps.filter (fun c => c.cls == SClass.kbnet)).map Subservice.name

/-- Transcription of HealthEngine.update_dependency_graph (health.py lines
112 to 134): collect the current vm and kb child names and the keys of the
virtualbox vms and vpp gnmi raw scopes, remove the expired vm and kb nodes
and add the newly observed ones (with the default virtualbox hypervisor and
vpp framework). The source iterates Python set differences, whose order is
unspecified; the embedding iterates them in list order, and the verified
property is order-insensitive. A missing raw scope raises a KeyError in the
source; the embedding reads it as empty and the theorems assume the scopes
are present. -/
def Engine.update_dependency_graph (e : Engine) : Engine :=
  let vms := vm_child_names e.root.dependencies
  let kbs := kb_child_names e.root.dependencies
  let monitored_vms := dkeys (getDict e.store "virtualbox/vms")
  let monitored_kbs := dkeys (getDict e.store "vpp/gnmi")
  let e1 := (vms.filter (fun n => decide (n ∉ monitored_vms))).foldl Engine.remove_vm e
  let e2 := (kbs.filter (fun n => decide (n ∉ monitored_kbs))).foldl Engine.remove_kbnet e1
  let e3 := (monitored_vms.filter (fun n => decide (n ∉ vms))).foldl
    (fun acc n => acc.add_vm n "virtualbox") e2
  (monitored_kbs.filter (fun n => decide (n ∉ kbs))).foldl
    (fun acc n => acc.add_kbnet n "vpp") e3

/-- Transcription of HealthEngine.update_health (health.py lines 154 to
157): reconcile the dependency graph, refresh the metrics from the root,
then aggregate symptoms and health scores from the root. The resulting
symptom list and health-score dict (stored into the symptoms and
health-scores entries of the data dict by the source) are returned next to
the updated engine. -/
def Engine.update_health (e : Engine) : Engine × List Symptom × List (String × Int) :=
  let e1 := e.update_dependency_graph
  let r := update_metrics e1.root e1.store
  let a := update_symptoms r.1 r.2.1
  ({ e1 with root := a.1, store := r.2.1 }, a.2.1, a.2.2)

/-- Unfolding lemma for update_symptoms on a constructor. -/
theorem update_symptoms_mk (cls : SClass) (typ nm bk : String) (imp act : Bool)
    (hs : Int) (fn p : String) (syms psyms : List Symptom)
    (deps : List Subservice) (st : Store) :
    update_symptoms (.mk cls typ nm bk imp act hs fn p syms psyms deps) st =
      match update_symptoms_deps deps st [] [] 100 with
      | (deps2, positives0, scores0, score0) =>
        match syms.foldl (symptom_step st) (score0, []) with
        | (score1, pos1) =>
          (.mk cls typ nm bk imp act score1 fn p syms pos1 deps2,
           positives0 ++ pos1,
           dinsert fn score1 scores0) := by
  simp [update_symptoms]

/-- The symptom fold keeps the score between 0 and 100. -/
theorem symptom_foldl_bounds (st : Store) (syms : List Symptom) :
    ∀ acc : Int × List Symptom, 0 ≤ acc.1 → acc.1 ≤ 100 →
      0 ≤ (syms.foldl (symptom_step st) acc).1 ∧
        (syms.foldl (symptom_step st) acc).1 ≤ 100 := by
  induction syms with
  | nil => exact fun acc h0 h1 => ⟨h0, h1⟩
  | cons sym rest ih =>
    intro acc h0 h1
    simp only [List.foldl_cons]
    apply ih
    · unfold symptom_step
      split
      · exact le_max_left 0 _
      · exact h0
    · unfold symptom_step
      split
      · refine max_le (by norm_num) ?_
        have hw : (0 : Int) ≤ (sym.weight : Int) := Int.ofNat_nonneg _
        omega
      · exact h1

mutual

/-- After update_symptoms every node of the resulting subtree has a health
score between 0 and 100. -/
theorem update_symptoms_bounds (s : Subservice) (st : Store) :
    scores_ok (update_symptoms s st).1 = true := by
  match s with
  | .mk cls typ nm bk imp act hs fn p syms psyms deps =>
    have hd := update_symptoms_deps_bounds deps st [] [] 100 (by norm_num) (by norm_num)
    rw [update_symptoms_mk]
    rcases hdef : update_symptoms_deps deps st [] [] 100 with ⟨deps2, pos0, sc0, score0⟩
    rw [hdef] at hd
    rcases hfold : syms.foldl (symptom_step st) (score0, []) with ⟨score1, pos1⟩
    have hb := symptom_foldl_bounds st syms (score0, []) hd.2.1 hd.2.2
    rw [hfold] at hb
    simp only [hdef, hfold, scores_ok]
    rw [Bool.and_eq_true, Bool.and_eq_true]
    exact ⟨⟨by simpa using hb.1, by simpa using hb.2⟩, hd.1⟩

/-- The dependency loop of update_symptoms keeps the running parent score
between 0 and 100 and returns children whose subtrees all satisfy the
bounds. -/
theorem update_symptoms_deps_bounds (l : List Subservice) (st : Store)
    (pos : List Symptom) (hsd : List (String × Int)) (score : Int)
    (h0 : 0 ≤ score) (h1 : score ≤ 100) :
    scores_ok_list (update_symptoms_deps l st pos hsd score).1 = true ∧
      0 ≤ (update_symptoms_deps l st pos hsd score).2.2.2 ∧
      (update_symptoms_deps l st pos hsd score).2.2.2 ≤ 100 := by
  match l with
  | [] => exact ⟨rfl, h0, h1⟩
  | c :: rest =>
    have hc := update_symptoms_bounds c st
    rcases hcdef : update_symptoms c st with ⟨c2, p2, hs2⟩
    rw [hcdef] at hc
    have hc2 : 0 ≤ c2.health_score ∧ c2.health_score ≤ 100 := by
      rcases c2 with ⟨_, _, _, _, _, _, hsc, _, _, _, _, d⟩
      simp only [scores_ok, Bool.and_eq_true, decide_eq_true_eq] at hc
      exact ⟨hc.1.1, hc.1.2⟩
    set score2 := if c2.impacting then max 0 (score - (100 - c2.health_score)) else score with hscore2
    have hs2b : 0 ≤ score2 ∧ score2 ≤ 100 := by
      rw [hscore2]
      split
      · constructor
        · exact le_max_left 0 _
        · refine max_le (by norm_num) ?_
          omega
      · exact ⟨h0, h1⟩
    have hrest := update_symptoms_deps_bounds rest st (pos ++ p2) (dupdate hsd hs2)
      score2 hs2b.1 hs2b.2
    show scores_ok_list (update_symptoms_deps (c :: rest) st pos hsd score).1 = true ∧ _
    simp only [update_symptoms_deps, hcdef]
    rcases hrdef : update_symptoms_deps rest st (pos ++ p2) (dupdate hsd hs2) score2 with
      ⟨rest2, posF, hsdF, scoreF⟩
    rw [hrdef] at hrest
    simp only [← hscore2, hrdef]
    refine ⟨?_, hrest.2⟩
    simp only [scores_ok_list, Bool.and_eq_true]
    exact ⟨hc, hrest.1⟩

end

/-- C1: for every subservice node in the dependency graph, after every call
to update_symptoms (one per engine cycle) the health score of the node is
an integer with 0 at most health_score at most 100; scores_ok checks the
bound on every node of the subtree returned by update_symptoms. -/
theorem c1_health_scores_bounded (s : Subservice) (st : Store) :
    scores_ok (update_symptoms s st).1 = true :=
  update_symptoms_bounds s st

/-- Closed form of the dependency loop: the updated children, the
concatenated child positives, the sequentially merged child score dicts and
the folded parent score; the three accumulators do not influence anything
but their own output component. -/
theorem update_symptoms_deps_spec (st : Store) (l : List Subservice) :
    ∀ (pos : List Symptom) (hsd : List (String × Int)) (score : Int),
      update_symptoms_deps l st pos hsd score =
        (l.map (fun c => (update_symptoms c st).1),
         pos ++ (l.map (fun c => (update_symptoms c st).2.1)).flatten,
         l.foldl (fun d c => dupdate d (update_symptoms c st).2.2) hsd,
         l.foldl (fun sc c =>
           if (update_symptoms c st).1.impacting then
             max 0 (sc - (100 - (update_symptoms c st).1.health_score))
           else sc) score) := by
  induction l with
  | nil => intro pos hsd score; simp [update_symptoms_deps]
  | cons c rest ih =>
    intro pos hsd score
    simp only [update_symptoms_deps]
    rcases hc : update_symptoms c st with ⟨c2, p2, hs2⟩
    simp only [ih, List.map_cons, List.flatten_cons, List.foldl_cons, hc,
      List.append_assoc]

/-- Parent score after the dependency loop, in closed form. -/
def node_score0 (st : Store) (s : Subservice) : Int :=
  s.dependencies.foldl (fun sc c =>
    if (update_symptoms c st).1.impacting then
      max 0 (sc - (100 - (update_symptoms c st).1.health_score))
    else sc) 100

/-- Score and positive symptoms of a node after its own symptom loop. -/
def node_fold (st : Store) (s : Subservice) : Int × List Symptom :=
  s.symptoms.foldl (symptom_step st) (node_score0 st s, [])

/-- Children of a node after the recursive update. -/
def updated_children (st : Store) (s : Subservice) : List Subservice :=
  s.dependencies.map (fun c => (update_symptoms c st).1)

/-- Flat positive-symptom list collected from the children of a node. -/
def children_positives (st : Store) (s : Subservice) : List Symptom :=
  (s.dependencies.map (fun c => (update_symptoms c st).2.1)).flatten

/-- Health-score dict merged from the children of a node. -/
def children_scores_dict (st : Store) (s : Subservice) : List (String × Int) :=
  s.dependencies.foldl (fun d c => dupdate d (update_symptoms c st).2.2) []

/-- Closed form of update_symptoms on any node. -/
theorem update_symptoms_eq (s : Subservice) (st : Store) :
    update_symptoms s st =
      (Subservice.mk s.cls s.typ s.name s.backend s.impacting s.active
         (node_fold st s).1 s.fullname s.path s.symptoms (node_fold st s).2
         (updated_children st s),
       children_positives st s ++ (node_fold st s).2,
       dinsert s.fullname (node_fold st s).1 (children_scores_dict st s)) := by
  rcases s with ⟨cls, typ, nm, bk, imp, act, hs, fn, p, syms, psyms, deps⟩
  rw [update_symptoms_mk, update_symptoms_deps_spec]
  rcases hfold : syms.foldl (symptom_step st)
      (deps.foldl (fun sc c =>
        if (update_symptoms c st).1.impacting then
          max 0 (sc - (100 - (update_symptoms c st).1.health_score))
        else sc) 100, []) with ⟨score1, pos1⟩
  simp only [node_fold, node_score0, updated_children, children_positives,
    children_scores_dict, Subservice.dependencies_mk, Subservice.symptoms_mk,
    Subservice.cls_mk, Subservice.typ_mk, Subservice.name_mk,
    Subservice.backend_mk, Subservice.impacting_mk, Subservice.active_mk,
    Subservice.fullname_mk, Subservice.path_mk, hfold, List.nil_append]

/-- The update preserves the impacting flag of a node. -/
theorem update_symptoms_impacting (s : Subservice) (st : Store) :
    ((update_symptoms s st).1).impacting = s.impacting := by
  rw [update_symptoms_eq]
  rfl

/-- The update keeps the health score of the returned node equal to the
score recorded under the fullname of the node. -/
theorem update_symptoms_health_score (s : Subservice) (st : Store) :
    ((update_symptoms s st).1).health_score = (node_fold st s).1 := by
  rw [update_symptoms_eq]
  rfl

/-- Stated from the words of the claim and of spec 4.F step 2: for each
impacting child, subtract (100 minus the child health score) from the
parent score, clamping to a minimum of 0 after each subtraction. -/
def spec_score_children (children : List Subservice) (init : Int) : Int :=
  children.foldl (fun sc c =>
    if c.impacting then max 0 (sc - (100 - c.health_score)) else sc) init

/-- Stated from the words of the claim and of spec 4.F step 3: for each
bound symptom whose check returns true, subtract its severity weight,
again clamping at 0. -/
def spec_score_symptoms (st : Store) (syms : List Symptom) (init : Int) : Int :=
  syms.foldl (fun sc sym =>
    if sym.check st then max 0 (sc - (sym.weight : Int)) else sc) init

/-- The score component of the symptom fold equals the claimed symptom
formula (the positive-symptom accumulator does not feed the score). -/
theorem symptom_foldl_fst (st : Store) (syms : List Symptom) :
    ∀ acc : Int × List Symptom,
      (syms.foldl (symptom_step st) acc).1 = spec_score_symptoms st syms acc.1 := by
  induction syms with
  | nil => intro acc; rfl
  | cons sym rest ih =>
    intro acc
    simp only [List.foldl_cons]
    rw [ih (symptom_step st acc sym)]
    have hstep : (symptom_step st acc sym).1 =
        if sym.check st then max 0 (acc.1 - (sym.weight : Int)) else acc.1 := by
      unfold symptom_step
      split <;> rfl
    simp only [spec_score_symptoms, List.foldl_cons, hstep]

/-- The score collected over the dependencies equals the claimed child
formula over the post-update children. -/
theorem node_score0_eq (st : Store) (s : Subservice) :
    node_score0 st s = spec_score_children (updated_children st s) 100 := by
  unfold node_score0 spec_score_children updated_children
  rw [List.foldl_map]

/-- With no impacting child the child formula leaves the score unchanged. -/
theorem spec_score_children_skip (children : List Subservice)
    (h : ∀ c ∈ children, c.impacting = false) :
    ∀ init : Int, spec_score_children children init = init := by
  induction children with
  | nil => intro init; rfl
  | cons c rest ih =>
    intro init
    simp only [spec_score_children, List.foldl_cons] at ih ⊢
    rw [h c (List.mem_cons_self c rest)]
    exact ih (fun x hx => h x (List.mem_cons_of_mem c hx)) init

/-- With no firing symptom the symptom formula leaves the score unchanged. -/
theorem spec_score_symptoms_skip (st : Store) (syms : List Symptom)
    (h : ∀ sym ∈ syms, sym.check st = false) :
    ∀ init : Int, spec_score_symptoms st syms init = init := by
  induction syms with
  | nil => intro init; rfl
  | cons sym rest ih =>
    intro init
    simp only [spec_score_symptoms, List.foldl_cons] at ih ⊢
    rw [h sym (List.mem_cons_self sym rest)]
    exact ih (fun x hx => h x (List.mem_cons_of_mem sym hx)) init

/-- C3: update_symptoms computes the node score by starting at 100,
subtracting for each impacting child (100 minus the child post-update
health score) with a clamp at 0 after each subtraction, then subtracting
the severity weight of each symptom whose check fires, again clamping at 0;
consequently a node with no firing symptoms and no impacting children ends
the cycle with health score exactly 100. -/
theorem c3_score_is_claimed_formula (s : Subservice) (st : Store) :
    ((update_symptoms s st).1).health_score =
      spec_score_symptoms st s.symptoms
        (spec_score_children (updated_children st s) 100) ∧
    ((∀ sym ∈ s.symptoms, sym.check st = false) →
      (∀ c ∈ s.dependencies, c.impacting = false) →
      ((update_symptoms s st).1).health_score = 100) := by
  have hmain : ((update_symptoms s st).1).health_score =
      spec_score_symptoms st s.symptoms
        (spec_score_children (updated_children st s) 100) := by
    rw [update_symptoms_health_score, node_fold, symptom_foldl_fst, node_score0_eq]
  refine ⟨hmain, fun hns hnc => ?_⟩
  have hchildren : ∀ c ∈ updated_children st s, c.impacting = false := by
    intro c hcmem
    rcases List.mem_map.mp hcmem with ⟨c0, hc0, hc0eq⟩
    rw [← hc0eq, update_symptoms_impacting]
    exact hnc c0 hc0
  rw [hmain, spec_score_children_skip _ hchildren, spec_score_symptoms_skip st _ hns]

/-- A plain leaf with a single never-checked symptom slot left empty, used
as a concrete evaluation input. -/
def unit_node : Subservice :=
  .mk .plain "cpu" "" "" true true 100 "/node/bm/cpu" "/node/bm/cpu" [] [] []

/-- Witness for C3 at a concrete node with no symptoms and no children. -/
theorem c3_score_is_claimed_formula_witness :
    ((update_symptoms unit_node []).1).health_score = 100 :=
  (c3_score_is_claimed_formula unit_node []).2
    (by intro sym h; simp [unit_node] at h)
    (by intro c h; simp [unit_node] at h)

/-- Replacing one non-impacting child by another non-impacting child does
not change the child score formula. -/
theorem spec_score_children_replace (pre post : List Subservice)
    (u v : Subservice) (hu : u.impacting = false) (hv : v.impacting = false)
    (init : Int) :
    spec_score_children (pre ++ u :: post) init =
      spec_score_children (pre ++ v :: post) init := by
  unfold spec_score_children
  rw [List.foldl_append, List.foldl_append, List.foldl_cons, List.foldl_cons]
  simp only [hu, hv, Bool.false_eq_true, if_false]

/-- C4: a child with impacting false never influences the parent score:
the score computed by update_symptoms is the same with any other
non-impacting child in its place (in particular one firing no symptoms at
all), yet every positive symptom collected under the child still appears
in the flat symptom list that update_symptoms returns for the parent. -/
theorem c4_non_impacting_child (cls : SClass) (typ nm bk : String)
    (imp act : Bool) (hs : Int) (fn p : String) (syms psyms : List Symptom)
    (pre post : List Subservice) (c c2 : Subservice) (st : Store)
    (hc : c.impacting = false) (hc2 : c2.impacting = false) :
    ((update_symptoms
        (.mk cls typ nm bk imp act hs fn p syms psyms (pre ++ c :: post)) st).1).health_score =
      ((update_symptoms
        (.mk cls typ nm bk imp act hs fn p syms psyms (pre ++ c2 :: post)) st).1).health_score ∧
    (∀ x ∈ (update_symptoms c st).2.1,
      x ∈ (update_symptoms
        (.mk cls typ nm bk imp act hs fn p syms psyms (pre ++ c :: post)) st).2.1) := by
  constructor
  · have h1 := (c3_score_is_claimed_formula
      (.mk cls typ nm bk imp act hs fn p syms psyms (pre ++ c :: post)) st).1
    have h2 := (c3_score_is_claimed_formula
      (.mk cls typ nm bk imp act hs fn p syms psyms (pre ++ c2 :: post)) st).1
    rw [h1, h2]
    simp only [updated_children, Subservice.dependencies_mk, Subservice.symptoms_mk,
      List.map_append, List.map_cons]
    rw [spec_score_children_replace
      (pre.map (fun x => (update_symptoms x st).1))
      (post.map (fun x => (update_symptoms x st).1))
      ((update_symptoms c st).1) ((update_symptoms c2 st).1)
      (by rw [update_symptoms_impacting]; exact hc)
      (by rw [update_symptoms_impacting]; exact hc2) 100]
  · intro x hx
    rw [update_symptoms_eq]
    apply List.mem_append_left
    simp only [children_positives, Subservice.dependencies_mk]
    rw [List.mem_flatten]
    refine ⟨(update_symptoms c st).2.1, ?_, hx⟩
    exact List.mem_map.mpr ⟨c, by simp, rfl⟩

/-- A non-impacting plain leaf used as a concrete evaluation input. -/
def nonimp_node : Subservice :=
  .mk .plain "cpu" "" "" false true 100 "/node/bm/cpu" "/node/bm/cpu" [] [] []

/-- Witness for C4 at a concrete parent with one non-impacting child. -/
theorem c4_non_impacting_child_witness :
    nonimp_node.impacting = false ∧
    ((update_symptoms
        (.mk .node "node" "h" "" true true 100 "/node[name=h]" "/node" [] []
          ([] ++ nonimp_node :: [])) []).1).health_score =
      ((update_symptoms
        (.mk .node "node" "h" "" true true 100 "/node[name=h]" "/node" [] []
          ([] ++ nonimp_node :: [])) []).1).health_score ∧
    (∀ x ∈ (update_symptoms nonimp_node []).2.1,
      x ∈ (update_symptoms
        (.mk .node "node" "h" "" true true 100 "/node[name=h]" "/node" [] []
          ([] ++ nonimp_node :: [])) []).2.1) :=
  ⟨rfl,
   (c4_non_impacting_child .node "node" "h" "" true true 100 "/node[name=h]" "/node"
     [] [] [] [] nonimp_node nonimp_node [] rfl rfl).1,
   (c4_non_impacting_child .node "node" "h" "" true true 100 "/node[name=h]" "/node"
     [] [] [] [] nonimp_node nonimp_node [] rfl rfl).2⟩

@[simp] theorem Subservice.withDeps_dependencies (s : Subservice) (d : List Subservice) :
    (s.withDeps d).dependencies = d := by
  cases s
  rfl

/-- The subservice built by mkVM is a VM with the given name. -/
theorem mkVM_fst (sargs : List Symptom) (ml : String → List String)
    (nm hyper f p : String) (st : Store) :
    (mkVM sargs ml nm hyper f p st).1.cls = SClass.vm ∧
      (mkVM sargs ml nm hyper f p st).1.name = nm := ⟨rfl, rfl⟩

/-- The subservice built by mkKBNet is a KBNet with the given name. -/
theorem mkKBNet_fst (sargs : List Symptom) (ml : String → List String)
    (nm fw f p : String) (st : Store) :
    (mkKBNet sargs ml nm fw f p st).1.cls = SClass.kbnet ∧
      (mkKBNet sargs ml nm fw f p st).1.name = nm := ⟨rfl, rfl⟩

theorem vm_child_names_append (l1 l2 : List Subservice) :
    vm_child_names (l1 ++ l2) = vm_child_names l1 ++ vm_child_names l2 := by
  simp [vm_child_names, List.filter_append]

theorem kb_child_names_append (l1 l2 : List Subservice) :
    kb_child_names (l1 ++ l2) = kb_child_names l1 ++ kb_child_names l2 := by
  simp [kb_child_names, List.filter_append]

/-- Removing a VM child erases exactly the first occurrence of the name
from the vm child names. -/
theorem remove_vm_deps_vm_names (nm : String) (st : Store) (l : List Subservice) :
    vm_child_names (remove_vm_deps nm st l).1 = (vm_child_names l).erase nm := by
  induction l with
  | nil => rfl
  | cons c rest ih =>
    by_cases h : c.cls = SClass.vm ∧ c.name = nm
    · simp only [remove_vm_deps, if_pos h]
      simp [vm_child_names, List.filter_cons, h.1, h.2, List.erase_cons_head]
    · simp only [remove_vm_deps, if_neg h]
      by_cases hv : c.cls = SClass.vm
      · have hn : c.name ≠ nm := fun hh => h ⟨hv, hh⟩
        simp [vm_child_names, List.filter_cons, hv, List.erase_cons, hn] at ih ⊢
        exact ih
      · simp [vm_child_names, List.filter_cons, hv] at ih ⊢
        exact ih

/-- Removing a VM child leaves the kb child names unchanged. -/
theorem remove_vm_deps_kb_names (nm : String) (st : Store) (l : List Subservice) :
    kb_child_names (remove_vm_deps nm st l).1 = kb_child_names l := by
  induction l with
  | nil => rfl
  | cons c rest ih =>
    by_cases h : c.cls = SClass.vm ∧ c.name = nm
    · have hk : c.cls ≠ SClass.kbnet := by rw [h.1]; intro hh; cases hh
      simp only [remove_vm_deps, if_pos h]
      simp [kb_child_names, List.filter_cons, hk]
    · simp only [remove_vm_deps, if_neg h]
      by_cases hk : c.cls = SClass.kbnet
      · simp [kb_child_names, List.filter_cons, hk] at ih ⊢
        exact ih
      · simp [kb_child_names, List.filter_cons, hk] at ih ⊢
        exact ih

/-- Removing a KBNet child erases exactly the first occurrence of the name
from the kb child names. -/
theorem remove_kb_deps_kb_names (nm : String) (st : Store) (l : List Subservice) :
    kb_child_names (remove_kb_deps nm st l).1 = (kb_child_names l).erase nm := by
  induction l with
  | nil => rfl
  | cons c rest ih =>
    by_cases h : c.cls = SClass.kbnet ∧ c.name = nm
    · simp only [remove_kb_deps, if_pos h]
      simp [kb_child_names, List.filter_cons, h.1, h.2, List.erase_cons_head]
    · simp only [remove_kb_deps, if_neg h]
      by_cases hv : c.cls = SClass.kbnet
      · have hn : c.name ≠ nm := fun hh => h ⟨hv, hh⟩
        simp [kb_child_names, List.filter_cons, hv, List.erase_cons, hn] at ih ⊢
        exact ih
      · simp [kb_child_names, List.filter_cons, hv] at ih ⊢
        exact ih

/-- Removing a KBNet child leaves the vm child names unchanged. -/
theorem remove_kb_deps_vm_names (nm : String) (st : Store) (l : List Subservice) :
    vm_child_names (remove_kb_deps nm st l).1 = vm_child_names l := by
  induction l with
  | nil => rfl
  | cons c rest ih =>
    by_cases h : c.cls = SClass.kbnet ∧ c.name = nm
    · have hk : c.cls ≠ SClass.vm := by rw [h.1]; intro hh; cases hh
      simp only [remove_kb_deps, if_pos h]
      simp [vm_child_names, List.filter_cons, hk]
    · simp only [remove_kb_deps, if_neg h]
      by_cases hk : c.cls = SClass.vm
      · simp [vm_child_names, List.filter_cons, hk] at ih ⊢
        exact ih
      · simp [vm_child_names, List.filter_cons, hk] at ih ⊢
        exact ih

theorem remove_vm_root (e : Engine) (nm : String) :
    (e.remove_vm nm).root.dependencies =
      (remove_vm_deps nm e.store e.root.dependencies).1 := by
  simp [Engine.remove_vm]

theorem remove_kb_root (e : Engine) (nm : String) :
    (e.remove_kbnet nm).root.dependencies =
      (remove_kb_deps nm e.store e.root.dependencies).1 := by
  simp [Engine.remove_kbnet]

theorem add_vm_root (e : Engine) (nm hyper : String) :
    (e.add_vm nm hyper).root.dependencies =
      e.root.dependencies ++
        [(mkVM e.sargs e.ml nm hyper e.root.fullname e.root.path e.store).1] := by
  simp [Engine.add_vm]

theorem add_kb_root (e : Engine) (nm fw : String) :
    (e.add_kbnet nm fw).root.dependencies =
      e.root.dependencies ++
        [(mkKBNet e.sargs e.ml nm fw e.root.fullname e.root.path e.store).1] := by
  simp [Engine.add_kbnet]

theorem add_vm_names (e : Engine) (nm hyper : String) :
    vm_child_names ((e.add_vm nm hyper).root.dependencies) =
        vm_child_names e.root.dependencies ++ [nm] ∧
      kb_child_names ((e.add_vm nm hyper).root.dependencies) =
        kb_child_names e.root.dependencies := by
  have h1 := (mkVM_fst e.sargs e.ml nm hyper e.root.fullname e.root.path e.store).1
  have h2 := (mkVM_fst e.sargs e.ml nm hyper e.root.fullname e.root.path e.store).2
  rw [add_vm_root]
  constructor
  · rw [vm_child_names_append]
    simp [vm_child_names, List.filter_cons, h1, h2]
  · rw [kb_child_names_append]
    simp [kb_child_names, List.filter_cons, h1]

theorem add_kb_names (e : Engine) (nm fw : String) :
    vm_child_names ((e.add_kbnet nm fw).root.dependencies) =
        vm_child_names e.root.dependencies ∧
      kb_child_names ((e.add_kbnet nm fw).root.dependencies) =
        kb_child_names e.root.dependencies ++ [nm] := by
  have h1 := (mkKBNet_fst e.sargs e.ml nm fw e.root.fullname e.root.path e.store).1
  have h2 := (mkKBNet_fst e.sargs e.ml nm fw e.root.fullname e.root.path e.store).2
  rw [add_kb_root]
  constructor
  · rw [vm_child_names_append]
    simp [vm_child_names, List.filter_cons, h1]
  · rw [kb_child_names_append]
    simp [kb_child_names, List.filter_cons, h1, h2]

theorem foldl_remove_vm_names (L : List String) :
    ∀ e : Engine,
      vm_child_names ((L.foldl Engine.remove_vm e).root.dependencies) =
        L.foldl (fun ns n => ns.erase n) (vm_child_names e.root.dependencies) ∧
      kb_child_names ((L.foldl Engine.remove_vm e).root.dependencies) =
        kb_child_names e.root.dependencies := by
  induction L with
  | nil => intro e; exact ⟨rfl, rfl⟩
  | cons n rest ih =>
    intro e
    simp only [List.foldl_cons]
    have hstep1 : vm_child_names ((e.remove_vm n).root.dependencies) =
        (vm_child_names e.root.dependencies).erase n := by
      rw [remove_vm_root, remove_vm_deps_vm_names]
    have hstep2 : kb_child_names ((e.remove_vm n).root.dependencies) =
        kb_child_names e.root.dependencies := by
      rw [remove_vm_root, remove_vm_deps_kb_names]
    refine ⟨?_, ?_⟩
    · rw [(ih (e.remove_vm n)).1, hstep1]
    · rw [(ih (e.remove_vm n)).2, hstep2]

theorem foldl_remove_kb_names (L : List String) :
    ∀ e : Engine,
      vm_child_names ((L.foldl Engine.remove_kbnet e).root.dependencies) =
        vm_child_names e.root.dependencies ∧
      kb_child_names ((L.foldl Engine.remove_kbnet e).root.dependencies) =
        L.foldl (fun ns n => ns.erase n) (kb_child_names e.root.dependencies) := by
  induction L with
  | nil => intro e; exact ⟨rfl, rfl⟩
  | cons n rest ih =>
    intro e
    simp only [List.foldl_cons]
    have hstep1 : vm_child_names ((e.remove_kbnet n).root.dependencies) =
        vm_child_names e.root.dependencies := by
      rw [remove_kb_root, remove_kb_deps_vm_names]
    have hstep2 : kb_child_names ((e.remove_kbnet n).root.dependencies) =
        (kb_child_names e.root.dependencies).erase n := by
      rw [remove_kb_root, remove_kb_deps_kb_names]
    refine ⟨?_, ?_⟩
    · rw [(ih (e.remove_kbnet n)).1, hstep1]
    · rw [(ih (e.remove_kbnet n)).2, hstep2]

theorem foldl_add_vm_names (L : List String) :
    ∀ e : Engine,
      vm_child_names
          (((L.foldl (fun acc n => acc.add_vm n "virtualbox") e)).root.dependencies) =
        vm_child_names e.root.dependencies ++ L ∧
      kb_child_names
          (((L.foldl (fun acc n => acc.add_vm n "virtualbox") e)).root.dependencies) =
        kb_child_names e.root.dependencies := by
  induction L with
  | nil => intro e; exact ⟨by simp, rfl⟩
  | cons n rest ih =>
    intro e
    simp only [List.foldl_cons]
    refine ⟨?_, ?_⟩
    · rw [(ih (e.add_vm n "virtualbox")).1, (add_vm_names e n "virtualbox").1]
      simp
    · rw [(ih (e.add_vm n "virtualbox")).2, (add_vm_names e n "virtualbox").2]

theorem foldl_add_kb_names (L : List String) :
    ∀ e : Engine,
      vm_child_names
          (((L.foldl (fun acc n => acc.add_kbnet n "vpp") e)).root.dependencies) =
        vm_child_names e.root.dependencies ∧
      kb_child_names
          (((L.foldl (fun acc n => acc.add_kbnet n "vpp") e)).root.dependencies) =
        kb_child_names e.root.dependencies ++ L := by
  induction L with
  | nil => intro e; exact ⟨rfl, by simp⟩
  | cons n rest ih =>
    intro e
    simp only [List.foldl_cons]
    refine ⟨?_, ?_⟩
    · rw [(ih (e.add_kbnet n "vpp")).1, (add_kb_names e n "vpp").1]
    · rw [(ih (e.add_kbnet n "vpp")).2, (add_kb_names e n "vpp").2]
      simp

/-- Membership after folding erase over a list of names, for a duplicate
free start list. -/
theorem mem_foldl_erase (L : List String) :
    ∀ ns : List String, ns.Nodup → ∀ x : String,
      (x ∈ L.foldl (fun acc n => acc.erase n) ns ↔ x ∈ ns ∧ x ∉ L) := by
  induction L with
  | nil => intro ns _ x; simp
  | cons n rest ih =>
    intro ns h x
    simp only [List.foldl_cons]
    rw [ih (ns.erase n) (h.erase n)]
    rw [List.Nodup.mem_erase_iff h]
    constructor
    · rintro ⟨⟨hxn, hxm⟩, hxr⟩
      refine ⟨hxm, ?_⟩
      intro hmem
      rcases List.mem_cons.mp hmem with h1 | h2
      · exact hxn h1
      · exact hxr h2
    · rintro ⟨hxm, hxr⟩
      exact ⟨⟨fun hh => hxr (hh ▸ List.mem_cons_self n rest), hxm⟩,
        fun hh => hxr (List.mem_cons_of_mem n hh)⟩

/-- Unfolded form of update_dependency_graph: remove expired vm and kb
children, then add the newly observed ones. -/
theorem update_dependency_graph_eq (e : Engine) :
    e.update_dependency_graph =
      ((dkeys (getDict e.store "vpp/gnmi")).filter
          (fun n => decide (n ∉ kb_child_names e.root.dependencies))).foldl
        (fun acc n => acc.add_kbnet n "vpp")
        (((dkeys (getDict e.store "virtualbox/vms")).filter
            (fun n => decide (n ∉ vm_child_names e.root.dependencies))).foldl
          (fun acc n => acc.add_vm n "virtualbox")
          (((kb_child_names e.root.dependencies).filter
              (fun n => decide (n ∉ dkeys (getDict e.store "vpp/gnmi")))).foldl
            Engine.remove_kbnet
            (((vm_child_names e.root.dependencies).filter
                (fun n => decide (n ∉ dkeys (getDict e.store "virtualbox/vms")))).foldl
              Engine.remove_vm e))) := rfl

/-- C2: after update_dependency_graph the set of names of the VM children
of the root equals the set of keys of the virtualbox vms store scope, and
the set of names of the KBNet children equals the set of keys of the vpp
gnmi scope, provided the vm and kb child names were pairwise distinct
before the call. -/
theorem c2_reconciliation (e : Engine)
    (hvm : (vm_child_names e.root.dependencies).Nodup)
    (hkb : (kb_child_names e.root.dependencies).Nodup) :
    (∀ n, n ∈ vm_child_names ((e.update_dependency_graph).root.dependencies) ↔
        n ∈ dkeys (getDict e.store "virtualbox/vms")) ∧
    (∀ n, n ∈ kb_child_names ((e.update_dependency_graph).root.dependencies) ↔
        n ∈ dkeys (getDict e.store "vpp/gnmi")) := by
  rw [update_dependency_graph_eq]
  constructor
  · intro n
    rw [(foldl_add_kb_names _ _).1, (foldl_add_vm_names _ _).1,
        (foldl_remove_kb_names _ _).1, (foldl_remove_vm_names _ _).1,
        List.mem_append, mem_foldl_erase _ _ hvm n]
    simp only [List.mem_filter, decide_eq_true_eq]
    constructor
    · rintro (⟨hv, hnl⟩ | ⟨hm, _⟩)
      · by_contra hm
        exact hnl ⟨hv, hm⟩
      · exact hm
    · intro hm
      by_cases hv : n ∈ vm_child_names e.root.dependencies
      · exact Or.inl ⟨hv, fun hl => hl.2 hm⟩
      · exact Or.inr ⟨hm, hv⟩
  · intro n
    rw [(foldl_add_kb_names _ _).2, (foldl_add_vm_names _ _).2,
        (foldl_remove_kb_names _ _).2, List.mem_append,
        mem_foldl_erase _ _ (by rw [(foldl_remove_vm_names _ _).2]; exact hkb) n,
        (foldl_remove_vm_names _ _).2]
    simp only [List.mem_filter, decide_eq_true_eq]
    constructor
    · rintro (⟨hv, hnl⟩ | ⟨hm, _⟩)
      · by_contra hm
        exact hnl ⟨hv, hm⟩
      · exact hm
    · intro hm
      by_cases hv : n ∈ kb_child_names e.root.dependencies
      · exact Or.inl ⟨hv, fun hl => hl.2 hm⟩
      · exact Or.inr ⟨hm, hv⟩

/-- A registry with no metric names, used for concrete evaluations. -/
def wit_ml : String → List String := fun _ => []

/-- A concrete engine whose store observes one vm and no kb. -/
def wit_engine : Engine :=
  engine_init [] wit_ml "h"
    [("virtualbox/vms", Val.dict [("vm1", Val.dict [])]),
     ("vpp/gnmi", Val.dict [])]

/-- Witness for C2 at a concrete engine observing one vm. -/
theorem c2_reconciliation_witness :
    (vm_child_names wit_engine.root.dependencies).Nodup ∧
    (kb_child_names wit_engine.root.dependencies).Nodup ∧
    ((∀ n, n ∈ vm_child_names ((wit_engine.update_dependency_graph).root.dependencies) ↔
        n ∈ dkeys (getDict wit_engine.store "virtualbox/vms")) ∧
     (∀ n, n ∈ kb_child_names ((wit_engine.update_dependency_graph).root.dependencies) ↔
        n ∈ dkeys (getDict wit_engine.store "vpp/gnmi"))) :=
  ⟨by decide, by decide, c2_reconciliation wit_engine (by decide) (by decide)⟩

/-- Number of Baremetal children in a dependency list. -/
def bm_count (deps : List Subservice) : Nat :=
  (deps.filter (fun c => c.cls == SClass.baremetal)).length

theorem bm_count_append (l1 l2 : List Subservice) :
    bm_count (l1 ++ l2) = bm_count l1 + bm_count l2 := by
  simp [bm_count, List.filter_append]

theorem remove_vm_deps_bm_count (nm : String) (st : Store) (l : List Subservice) :
    bm_count (remove_vm_deps nm st l).1 = bm_count l := by
  induction l with
  | nil => rfl
  | cons c rest ih =>
    by_cases h : c.cls = SClass.vm ∧ c.name = nm
    · have hb : c.cls ≠ SClass.baremetal := by rw [h.1]; intro hh; cases hh
      simp only [remove_vm_deps, if_pos h]
      simp [bm_count, List.filter_cons, hb]
    · simp only [remove_vm_deps, if_neg h]
      by_cases hb : c.cls = SClass.baremetal
      · simp [bm_count, List.filter_cons, hb] at ih ⊢
        exact ih
      · simp [bm_count, List.filter_cons, hb] at ih ⊢
        exact ih

theorem remove_kb_deps_bm_count (nm : String) (st : Store) (l : List Subservice) :
    bm_count (remove_kb_deps nm st l).1 = bm_count l := by
  induction l with
  | nil => rfl
  | cons c rest ih =>
    by_cases h : c.cls = SClass.kbnet ∧ c.name = nm
    · have hb : c.cls ≠ SClass.baremetal := by rw [h.1]; intro hh; cases hh
      simp only [remove_kb_deps, if_pos h]
      simp [bm_count, List.filter_cons, hb]
    · simp only [remove_kb_deps, if_neg h]
      by_cases hb : c.cls = SClass.baremetal
      · simp [bm_count, List.filter_cons, hb] at ih ⊢
        exact ih
      · simp [bm_count, List.filter_cons, hb] at ih ⊢
        exact ih

theorem remove_vm_bm (e : Engine) (nm : String) :
    bm_count ((e.remove_vm nm).root.dependencies) = bm_count e.root.dependencies := by
  rw [remove_vm_root, remove_vm_deps_bm_count]

theorem remove_kb_bm (e : Engine) (nm : String) :
    bm_count ((e.remove_kbnet nm).root.dependencies) = bm_count e.root.dependencies := by
  rw [remove_kb_root, remove_kb_deps_bm_count]

theorem add_vm_bm (e : Engine) (nm hyper : String) :
    bm_count ((e.add_vm nm hyper).root.dependencies) = bm_count e.root.dependencies := by
  have h1 := (mkVM_fst e.sargs e.ml nm hyper e.root.fullname e.root.path e.store).1
  rw [add_vm_root, bm_count_append]
  simp [bm_count, List.filter_cons, h1]

theorem add_kb_bm (e : Engine) (nm fw : String) :
    bm_count ((e.add_kbnet nm fw).root.dependencies) = bm_count e.root.dependencies := by
  have h1 := (mkKBNet_fst e.sargs e.ml nm fw e.root.fullname e.root.path e.store).1
  rw [add_kb_root, bm_count_append]
  simp [bm_count, List.filter_cons, h1]

theorem foldl_remove_vm_bm (L : List String) :
    ∀ e : Engine, bm_count ((L.foldl Engine.remove_vm e).root.dependencies) =
      bm_count e.root.dependencies := by
  induction L with
  | nil => intro e; rfl
  | cons n rest ih =>
    intro e
    simp only [List.foldl_cons]
    rw [ih (e.remove_vm n), remove_vm_bm]

theorem foldl_remove_kb_bm (L : List String) :
    ∀ e : Engine, bm_count ((L.foldl Engine.remove_kbnet e).root.dependencies) =
      bm_count e.root.dependencies := by
  induction L with
  | nil => intro e; rfl
  | cons n rest ih =>
    intro e
    simp only [List.foldl_cons]
    rw [ih (e.remove_kbnet n), remove_kb_bm]

theorem foldl_add_vm_bm (L : List String) :
    ∀ e : Engine,
      bm_count (((L.foldl (fun acc n => acc.add_vm n "virtualbox") e)).root.dependencies) =
        bm_count e.root.dependencies := by
  induction L with
  | nil => intro e; rfl
  | cons n rest ih =>
    intro e
    simp only [List.foldl_cons]
    rw [ih (e.add_vm n "virtualbox"), add_vm_bm]

theorem foldl_add_kb_bm (L : List String) :
    ∀ e : Engine,
      bm_count (((L.foldl (fun acc n => acc.add_kbnet n "vpp") e)).root.dependencies) =
        bm_count e.root.dependencies := by
  induction L with
  | nil => intro e; rfl
  | cons n rest ih =>
    intro e
    simp only [List.foldl_cons]
    rw [ih (e.add_kbnet n "vpp"), add_kb_bm]

/-- One step of the graph-mutation interface of the engine: the add and
remove operations, a producer step that rebinds the observed raw vm and kb
scopes of the store (modelling the watchers publishing between ticks, with
arbitrary observed name sets) and the reconciliation against the store. -/
inductive GraphOp where
  | addVm : String → GraphOp
  | addKb : String → GraphOp
  | rmVm : String → GraphOp
  | rmKb : String → GraphOp
  | produce : List String → List String → GraphOp
  | reconcile : GraphOp

/-- Apply one graph operation to the engine. -/
def apply_op (e : Engine) : GraphOp → Engine
  | .addVm n => e.add_vm n "virtualbox"
  | .addKb n => e.add_kbnet n "vpp"
  | .rmVm n => e.remove_vm n
  | .rmKb n => e.remove_kbnet n
  | .produce vms kbs =>
      let st1 := dinsert "virtualbox/vms"
        (Val.dict (vms.map (fun n => (n, Val.dict [])))) e.store
      let st2 := dinsert "vpp/gnmi"
        (Val.dict (kbs.map (fun n => (n, Val.dict [])))) st1
      { e with store := st2 }
  | .reconcile => e.update_dependency_graph

/-- Every graph operation preserves the number of Baremetal children. -/
theorem apply_op_bm_count (e : Engine) (op : GraphOp) :
    bm_count ((apply_op e op).root.dependencies) = bm_count e.root.dependencies := by
  cases op with
  | addVm n => exact add_vm_bm e n "virtualbox"
  | addKb n => exact add_kb_bm e n "vpp"
  | rmVm n => exact remove_vm_bm e n
  | rmKb n => exact remove_kb_bm e n
  | produce vms kbs => rfl
  | reconcile =>
    have hr : apply_op e GraphOp.reconcile = e.update_dependency_graph := rfl
    rw [hr, update_dependency_graph_eq]
    rw [foldl_add_kb_bm, foldl_add_vm_bm, foldl_remove_kb_bm, foldl_remove_vm_bm]

/-- The dependency graph built at engine construction has exactly one
Baremetal child under the root. -/
theorem engine_init_bm_count (sargs : List Symptom) (ml : String → List String)
    (nodeName : String) (st0 : Store) :
    bm_count ((engine_init sargs ml nodeName st0).root.dependencies) = 1 := rfl

/-- C9: the root always has exactly one Baremetal child: it is created at
engine construction and no sequence of graph mutations (add_vm, add_kbnet,
remove_vm, remove_kbnet, producer updates of the observed vm and kb sets,
or update_dependency_graph) ever removes or duplicates it. -/
theorem c9_exactly_one_baremetal (sargs : List Symptom) (ml : String → List String)
    (nodeName : String) (st0 : Store) (ops : List GraphOp) :
    bm_count ((ops.foldl apply_op (engine_init sargs ml nodeName st0)).root.dependencies)
      = 1 := by
  have key : ∀ (l : List GraphOp) (e : Engine),
      bm_count e.root.dependencies = 1 →
      bm_count ((l.foldl apply_op e).root.dependencies) = 1 := by
    intro l
    induction l with
    | nil => intro e h; exact h
    | cons op rest ih =>
      intro e h
      simp only [List.foldl_cons]
      exact ih (apply_op e op) (by rw [apply_op_bm_count]; exact h)
  exact key ops _ (engine_init_bm_count sargs ml nodeName st0)

theorem dlookup_dinsert_self {α : Type} (k : String) (v : α) (d : List (String × α)) :
    dlookup k (dinsert k v d) = some v := by
  induction d with
  | nil => simp [dinsert, dlookup]
  | cons kv rest ih =>
    rcases kv with ⟨k2, v2⟩
    by_cases h : k2 = k
    · simp [dinsert, dlookup, h]
    · simp [dinsert, dlookup, h, ih]

theorem dlookup_dinsert_ne {α : Type} (k k2 : String) (v : α) (d : List (String × α))
    (h : k2 ≠ k) : dlookup k2 (dinsert k v d) = dlookup k2 d := by
  induction d with
  | nil => simp [dinsert, dlookup, Ne.symm h]
  | cons kv rest ih =>
    rcases kv with ⟨k3, v3⟩
    by_cases h3 : k3 = k
    · subst h3
      simp [dinsert, dlookup, Ne.symm h]
    · simp only [dinsert, if_neg h3, dlookup]
      by_cases h4 : k3 = k2
      · simp [h4]
      · simp [h4, ih]

theorem dlookup_dmodify_self {α : Type} (k : String) (f : α → α) (d : List (String × α)) :
    dlookup k (dmodify k f d) = (dlookup k d).map f := by
  induction d with
  | nil => rfl
  | cons kv rest ih =>
    rcases kv with ⟨k2, v2⟩
    by_cases h : k2 = k
    · simp [dmodify, dlookup, h]
    · simp [dmodify, dlookup, h, ih]

theorem dlookup_dmodify_ne {α : Type} (k k2 : String) (f : α → α) (d : List (String × α))
    (h : k2 ≠ k) : dlookup k2 (dmodify k f d) = dlookup k2 d := by
  induction d with
  | nil => rfl
  | cons kv rest ih =>
    rcases kv with ⟨k3, v3⟩
    by_cases h3 : k3 = k
    · subst h3
      simp [dmodify, dlookup, Ne.symm h]
    · simp only [dmodify, if_neg h3, dlookup]
      by_cases h4 : k3 = k2
      · simp [h4]
      · simp [h4, ih]

theorem dlookup_derase_ne {α : Type} (n m : String) (d : List (String × α))
    (h : m ≠ n) : dlookup m (derase n d) = dlookup m d := by
  induction d with
  | nil => rfl
  | cons kv rest ih =>
    rcases kv with ⟨k2, v2⟩
    by_cases h2 : k2 = n
    · subst h2
      simp [derase, dlookup, Ne.symm h]
    · simp only [derase, if_neg h2, dlookup]
      by_cases h3 : k2 = m
      · simp [h3]
      · simp [h3, ih]

theorem dlookup_eq_none_iff {α : Type} (k : String) (d : List (String × α)) :
    dlookup k d = none ↔ k ∉ dkeys d := by
  induction d with
  | nil => simp [dlookup, dkeys]
  | cons kv rest ih =>
    rcases kv with ⟨k2, v2⟩
    by_cases h : k2 = k
    · simp [dlookup, dkeys, h]
    · simp only [dlookup, if_neg h, dkeys, List.map_cons, List.mem_cons, ih]
      constructor
      · intro hk hor
        rcases hor with h1 | h2
        · exact h h1.symm
        · exact hk h2
      · intro hk h2
        exact hk (Or.inr h2)

theorem dlookup_derase_self {α : Type} (n : String) (d : List (String × α))
    (h : (dkeys d).Nodup) : dlookup n (derase n d) = none := by
  induction d with
  | nil => rfl
  | cons kv rest ih =>
    rcases kv with ⟨k2, v2⟩
    by_cases h2 : k2 = n
    · subst h2
      simp only [derase, if_pos rfl]
      rw [dlookup_eq_none_iff]
      simp only [dkeys, List.map_cons, List.nodup_cons] at h
      exact h.1
    · simp only [derase, if_neg h2, dlookup, if_neg h2]
      simp only [dkeys, List.map_cons, List.nodup_cons] at h
      exact ih h.2

/-- The store side effect of the remove_vm loop: the del_metrics deletion
runs exactly when a VM child with the name is present. -/
theorem remove_vm_deps_store (nm : String) (st : Store) (l : List Subservice) :
    (remove_vm_deps nm st l).2 =
      if ∃ c ∈ l, c.cls = SClass.vm ∧ c.name = nm then vm_del_metrics nm st
      else st := by
  induction l with
  | nil => simp [remove_vm_deps]
  | cons c rest ih =>
    by_cases h : c.cls = SClass.vm ∧ c.name = nm
    · simp only [remove_vm_deps, if_pos h]
      rw [if_pos ⟨c, List.mem_cons_self c rest, h⟩]
    · simp only [remove_vm_deps, if_neg h, ih]
      simp [List.exists_mem_cons_iff, h]

/-- The store side effect of the remove_kbnet loop. -/
theorem remove_kb_deps_store (nm : String) (st : Store) (l : List Subservice) :
    (remove_kb_deps nm st l).2 =
      if ∃ c ∈ l, c.cls = SClass.kbnet ∧ c.name = nm then kb_del_metrics nm st
      else st := by
  induction l with
  | nil => simp [remove_kb_deps]
  | cons c rest ih =>
    by_cases h : c.cls = SClass.kbnet ∧ c.name = nm
    · simp only [remove_kb_deps, if_pos h]
      rw [if_pos ⟨c, List.mem_cons_self c rest, h⟩]
    · simp only [remove_kb_deps, if_neg h, ih]
      simp [List.exists_mem_cons_iff, h]

/-- C5: removing a VM via remove_vm deletes exactly the store subtree under
the name entry of the node-vm scope — every key under that path — and
leaves every other top-level store entry and every other name in the scope
unchanged; symmetrically remove_kbnet deletes exactly the name entry of the
node-kb scope. Stated for a graph that has a VM child named nmv and a
KBNet child named nmk, with the Python-dict invariant that scope keys are
duplicate free. -/
theorem c5_remove_frame (e : Engine) (nmv nmk : String)
    (hv : ∃ c ∈ e.root.dependencies, c.cls = SClass.vm ∧ c.name = nmv)
    (hk : ∃ c ∈ e.root.dependencies, c.cls = SClass.kbnet ∧ c.name = nmk)
    (hnodv : (dkeys (getDict e.store "/node/vm")).Nodup)
    (hnodk : (dkeys (getDict e.store "/node/kb")).Nodup) :
    ((∀ k, k ≠ "/node/vm" → dlookup k (e.remove_vm nmv).store = dlookup k e.store) ∧
     (∀ m, m ≠ nmv → dlookup m (getDict (e.remove_vm nmv).store "/node/vm") =
        dlookup m (getDict e.store "/node/vm")) ∧
     dlookup nmv (getDict (e.remove_vm nmv).store "/node/vm") = none) ∧
    ((∀ k, k ≠ "/node/kb" → dlookup k (e.remove_kbnet nmk).store = dlookup k e.store) ∧
     (∀ m, m ≠ nmk → dlookup m (getDict (e.remove_kbnet nmk).store "/node/kb") =
        dlookup m (getDict e.store "/node/kb")) ∧
     dlookup nmk (getDict (e.remove_kbnet nmk).store "/node/kb") = none) := by
  have hsv : (e.remove_vm nmv).store = vm_del_metrics nmv e.store := by
    show (remove_vm_deps nmv e.store e.root.dependencies).2 = _
    rw [remove_vm_deps_store, if_pos hv]
  have hsk : (e.remove_kbnet nmk).store = kb_del_metrics nmk e.store := by
    show (remove_kb_deps nmk e.store e.root.dependencies).2 = _
    rw [remove_kb_deps_store, if_pos hk]
  constructor
  · refine ⟨?_, ?_, ?_⟩
    · intro k hkne
      rw [hsv, vm_del_metrics, dlookup_dmodify_ne _ _ _ _ hkne]
    · intro m hmne
      rw [hsv, vm_del_metrics]
      unfold getDict
      rw [dlookup_dmodify_self]
      cases hvv : dlookup "/node/vm" e.store with
      | none => rfl
      | some v =>
        show dlookup m (derase nmv v.asDict) = dlookup m v.asDict
        exact dlookup_derase_ne nmv m v.asDict hmne
    · rw [hsv, vm_del_metrics]
      unfold getDict
      rw [dlookup_dmodify_self]
      cases hvv : dlookup "/node/vm" e.store with
      | none => rfl
      | some v =>
        show dlookup nmv (derase nmv v.asDict) = none
        apply dlookup_derase_self
        unfold getDict at hnodv
        rw [hvv] at hnodv
        exact hnodv
  · refine ⟨?_, ?_, ?_⟩
    · intro k hkne
      rw [hsk, kb_del_metrics, dlookup_dmodify_ne _ _ _ _ hkne]
    · intro m hmne
      rw [hsk, kb_del_metrics]
      unfold getDict
      rw [dlookup_dmodify_self]
      cases hvv : dlookup "/node/kb" e.store with
      | none => rfl
      | some v =>
        show dlookup m (derase nmk v.asDict) = dlookup m v.asDict
        exact dlookup_derase_ne nmk m v.asDict hmne
    · rw [hsk, kb_del_metrics]
      unfold getDict
      rw [dlookup_dmodify_self]
      cases hvv : dlookup "/node/kb" e.store with
      | none => rfl
      | some v =>
        show dlookup nmk (derase nmk v.asDict) = none
        apply dlookup_derase_self
        unfold getDict at hnodk
        rw [hvv] at hnodk
        exact hnodk

/-- A concrete VM child for the frame witness. -/
def wit_vm_node : Subservice :=
  .mk .vm "vm" "vm1" "virtualbox" true true 100
    "/node[name=h]/vm[name=vm1]" "/node/vm" [] [] []

/-- A concrete KBNet child for the frame witness. -/
def wit_kb_node : Subservice :=
  .mk .kbnet "kb" "kb1" "vpp" true true 100
    "/node[name=h]/kb[name=kb1]" "/node/kb" [] [] []

/-- A concrete engine with one VM child, one KBNet child and their store
scopes, next to an unrelated raw scope. -/
def wit_engine5 : Engine :=
  ⟨[], wit_ml,
   .mk .node "node" "h" "" true true 100 "/node[name=h]" "/node" [] []
     [wit_vm_node, wit_kb_node],
   [("/node/vm", Val.dict [("vm1", Val.dict []), ("vm2", Val.dict [])]),
    ("/node/kb", Val.dict [("kb1", Val.dict [])]),
    ("virtualbox/vms", Val.dict [])],
   0⟩

/-- Witness for C5 at the concrete engine. -/
theorem c5_remove_frame_witness :
    ((∀ k, k ≠ "/node/vm" →
        dlookup k (wit_engine5.remove_vm "vm1").store = dlookup k wit_engine5.store) ∧
     (∀ m, m ≠ "vm1" →
        dlookup m (getDict (wit_engine5.remove_vm "vm1").store "/node/vm") =
          dlookup m (getDict wit_engine5.store "/node/vm")) ∧
     dlookup "vm1" (getDict (wit_engine5.remove_vm "vm1").store "/node/vm") = none) ∧
    ((∀ k, k ≠ "/node/kb" →
        dlookup k (wit_engine5.remove_kbnet "kb1").store = dlookup k wit_engine5.store) ∧
     (∀ m, m ≠ "kb1" →
        dlookup m (getDict (wit_engine5.remove_kbnet "kb1").store "/node/kb") =
          dlookup m (getDict wit_engine5.store "/node/kb")) ∧
     dlookup "kb1" (getDict (wit_engine5.remove_kbnet "kb1").store "/node/kb") = none) :=
  c5_remove_frame wit_engine5 "vm1" "kb1"
    ⟨wit_vm_node, by simp [wit_engine5, Subservice.dependencies], ⟨rfl, rfl⟩⟩
    ⟨wit_kb_node, by simp [wit_engine5, Subservice.dependencies], ⟨rfl, rfl⟩⟩
    (by decide) (by decide)

theorem dmodify_dinsert {α : Type} (k : String) (f : α → α) (v : α)
    (d : List (String × α)) :
    dmodify k f (dinsert k v d) = dinsert k (f v) d := by
  induction d with
  | nil => simp [dinsert, dmodify]
  | cons kv rest ih =>
    rcases kv with ⟨k2, v2⟩
    by_cases h : k2 = k
    · simp [dinsert, dmodify, h]
    · simp [dinsert, dmodify, h, ih]

/-- The store entry a fresh VM construction binds under its name: the five
group assignments of VM.init in order, every ring buffer empty. -/
def fresh_vm_entry (ml : String → List String) : List (String × Val) :=
  dinsert "/node/vm/mem" (init_metrics_rb ml "mem")
    (dinsert "/node/vm/net" (init_metrics_rb ml "net")
      (dinsert "/node/vm/proc" (init_metrics_rb ml "proc")
        (dinsert "/node/vm/net/if" (Val.dict [])
          (dinsert "/node/vm" (init_metrics_rb ml "vm") []))))

/-- The store entry a fresh KBNet construction binds under its name. -/
def fresh_kb_entry (ml : String → List String) : List (String × Val) :=
  dinsert "/node/kb/proc" (init_metrics_rb ml "proc")
    (dinsert "/node/kb/mem" (init_metrics_rb ml "mem")
      (dinsert "/node/kb/net/if" (Val.dict [])
        (dinsert "/node/kb" (init_metrics_rb ml "kb") [])))

/-- One inner-group assignment step of VM.init or KBNet.init, seen through
the top-level scope entry. -/
theorem modifyPath2_lookup (top nm key : String) (g : Val) (st : Store)
    (d0 e0 : List (String × Val))
    (h : dlookup top st = some (Val.dict (dinsert nm (Val.dict e0) d0))) :
    dlookup top (modifyPath [top, nm] (dinsert key g) st) =
      some (Val.dict (dinsert nm (Val.dict (dinsert key g e0)) d0)) := by
  show dlookup top (dmodify top _ st) = _
  rw [dlookup_dmodify_self, h]
  show some (Val.dict (dmodify nm _ (dinsert nm (Val.dict e0) d0))) = _
  rw [dmodify_dinsert]
  rfl

/-- The store after mkVM: the name entry of the node-vm scope is rebound to
the fresh entry, whatever was there before. -/
theorem mkVM_store (sargs : List Symptom) (ml : String → List String)
    (nm hyper f p : String) (st : Store) (d0 : List (String × Val))
    (h : dlookup "/node/vm" st = some (Val.dict d0)) :
    dlookup "/node/vm" (mkVM sargs ml nm hyper f p st).2 =
      some (Val.dict (dinsert nm (Val.dict (fresh_vm_entry ml)) d0)) := by
  have h1 : dlookup "/node/vm"
      (dmodify "/node/vm"
        (fun v => Val.dict (dinsert nm (Val.dict []) v.asDict)) st) =
      some (Val.dict (dinsert nm (Val.dict []) d0)) := by
    rw [dlookup_dmodify_self, h]
    rfl
  have h2 := modifyPath2_lookup "/node/vm" nm "/node/vm"
    (init_metrics_rb ml "vm") _ d0 [] h1
  have h3 := modifyPath2_lookup "/node/vm" nm "/node/vm/net/if"
    (Val.dict []) _ d0 _ h2
  have h4 := modifyPath2_lookup "/node/vm" nm "/node/vm/proc"
    (init_metrics_rb ml "proc") _ d0 _ h3
  have h5 := modifyPath2_lookup "/node/vm" nm "/node/vm/net"
    (init_metrics_rb ml "net") _ d0 _ h4
  have h6 := modifyPath2_lookup "/node/vm" nm "/node/vm/mem"
    (init_metrics_rb ml "mem") _ d0 _ h5
  exact h6

/-- The store after mkKBNet. -/
theorem mkKBNet_store (sargs : List Symptom) (ml : String → List String)
    (nm fw f p : String) (st : Store) (d0 : List (String × Val))
    (h : dlookup "/node/kb" st = some (Val.dict d0)) :
    dlookup "/node/kb" (mkKBNet sargs ml nm fw f p st).2 =
      some (Val.dict (dinsert nm (Val.dict (fresh_kb_entry ml)) d0)) := by
  have h1 : dlookup "/node/kb"
      (dmodify "/node/kb"
        (fun v => Val.dict (dinsert nm (Val.dict []) v.asDict)) st) =
      some (Val.dict (dinsert nm (Val.dict []) d0)) := by
    rw [dlookup_dmodify_self, h]
    rfl
  have h2 := modifyPath2_lookup "/node/kb" nm "/node/kb"
    (init_metrics_rb ml "kb") _ d0 [] h1
  have h3 := modifyPath2_lookup "/node/kb" nm "/node/kb/net/if"
    (Val.dict []) _ d0 _ h2
  have h4 := modifyPath2_lookup "/node/kb" nm "/node/kb/mem"
    (init_metrics_rb ml "mem") _ d0 _ h3
  have h5 := modifyPath2_lookup "/node/kb" nm "/node/kb/proc"
    (init_metrics_rb ml "proc") _ d0 _ h4
  exact h5

mutual

/-- Check that every ring buffer reachable under a store value is empty. -/
def all_rbs_empty : Val → Bool
  | .rb r => r.samples.isEmpty
  | .dict d => all_rbs_empty_list d

/-- List form of all_rbs_empty. -/
def all_rbs_empty_list : List (String × Val) → Bool
  | [] => true
  | kv :: rest => all_rbs_empty kv.2 && all_rbs_empty_list rest

end

theorem all_rbs_empty_init (names : List String) :
    all_rbs_empty_list (init_rb_dict names) = true := by
  induction names with
  | nil => rfl
  | cons n rest ih =>
    simp only [init_rb_dict, List.map_cons, all_rbs_empty_list, all_rbs_empty,
      RB.emptyRB, List.isEmpty, Bool.true_and] at ih ⊢
    exact ih

theorem all_rbs_empty_dinsert (k : String) (v : Val) (d : List (String × Val))
    (hv : all_rbs_empty v = true) (hd : all_rbs_empty_list d = true) :
    all_rbs_empty_list (dinsert k v d) = true := by
  induction d with
  | nil => simp [dinsert, all_rbs_empty_list, hv]
  | cons kv rest ih =>
    rcases kv with ⟨k2, v2⟩
    simp only [all_rbs_empty_list, Bool.and_eq_true] at hd
    by_cases h : k2 = k
    · simp [dinsert, h, all_rbs_empty_list, hv, hd.2]
    · simp only [dinsert, if_neg h, all_rbs_empty_list, Bool.and_eq_true]
      exact ⟨hd.1, ih hd.2⟩

theorem fresh_vm_entry_empty (ml : String → List String) :
    all_rbs_empty_list (fresh_vm_entry ml) = true := by
  unfold fresh_vm_entry
  exact all_rbs_empty_dinsert _ _ _ (all_rbs_empty_init _)
    (all_rbs_empty_dinsert _ _ _ (all_rbs_empty_init _)
      (all_rbs_empty_dinsert _ _ _ (all_rbs_empty_init _)
        (all_rbs_empty_dinsert _ _ _ rfl
          (all_rbs_empty_dinsert _ _ _ (all_rbs_empty_init _) rfl))))

theorem fresh_kb_entry_empty (ml : String → List String) :
    all_rbs_empty_list (fresh_kb_entry ml) = true := by
  unfold fresh_kb_entry
  exact all_rbs_empty_dinsert _ _ _ (all_rbs_empty_init _)
    (all_rbs_empty_dinsert _ _ _ (all_rbs_empty_init _)
      (all_rbs_empty_dinsert _ _ _ rfl
        (all_rbs_empty_dinsert _ _ _ (all_rbs_empty_init _) rfl)))

/-- C10: constructing a VM subservice with a given name unconditionally
rebinds the name entry of the node-vm store scope to freshly initialised
empty metric groups — whatever entry of the same name existed before — and
KBNet construction does the same in the node-kb scope; hence a re-added
VM or KBNet starts with empty metric history. -/
theorem c10_construction_overwrites (e : Engine) (nmv nmk hyper fw : String)
    (dv dk : List (String × Val))
    (hv : dlookup "/node/vm" e.store = some (Val.dict dv))
    (hk : dlookup "/node/kb" e.store = some (Val.dict dk)) :
    (dlookup nmv (getDict (e.add_vm nmv hyper).store "/node/vm") =
        some (Val.dict (fresh_vm_entry e.ml)) ∧
      all_rbs_empty_list (fresh_vm_entry e.ml) = true) ∧
    (dlookup nmk (getDict (e.add_kbnet nmk fw).store "/node/kb") =
        some (Val.dict (fresh_kb_entry e.ml)) ∧
      all_rbs_empty_list (fresh_kb_entry e.ml) = true) := by
  have hsv : (e.add_vm nmv hyper).store =
      (mkVM e.sargs e.ml nmv hyper e.root.fullname e.root.path e.store).2 := rfl
  have hsk : (e.add_kbnet nmk fw).store =
      (mkKBNet e.sargs e.ml nmk fw e.root.fullname e.root.path e.store).2 := rfl
  constructor
  · constructor
    · rw [hsv]
      unfold getDict
      rw [mkVM_store e.sargs e.ml nmv hyper e.root.fullname e.root.path e.store dv hv]
      show dlookup nmv (dinsert nmv (Val.dict (fresh_vm_entry e.ml)) dv) = _
      rw [dlookup_dinsert_self]
    · exact fresh_vm_entry_empty e.ml
  · constructor
    · rw [hsk]
      unfold getDict
      rw [mkKBNet_store e.sargs e.ml nmk fw e.root.fullname e.root.path e.store dk hk]
      show dlookup nmk (dinsert nmk (Val.dict (fresh_kb_entry e.ml)) dk) = _
      rw [dlookup_dinsert_self]
    · exact fresh_kb_entry_empty e.ml

/-- Witness for C10 at the concrete engine, re-adding names whose store
entries already exist (with a non-empty buffer for the vm one). -/
theorem c10_construction_overwrites_witness :
    (dlookup "vm1" (getDict (wit_engine5.add_vm "vm1" "virtualbox").store "/node/vm") =
        some (Val.dict (fresh_vm_entry wit_engine5.ml)) ∧
      all_rbs_empty_list (fresh_vm_entry wit_engine5.ml) = true) ∧
    (dlookup "kb1" (getDict (wit_engine5.add_kbnet "kb1" "vpp").store "/node/kb") =
        some (Val.dict (fresh_kb_entry wit_engine5.ml)) ∧
      all_rbs_empty_list (fresh_kb_entry wit_engine5.ml) = true) :=
  c10_construction_overwrites wit_engine5 "vm1" "kb1" "virtualbox" "vpp"
    [("vm1", Val.dict []), ("vm2", Val.dict [])]
    [("kb1", Val.dict [])] rfl rfl

@[simp] theorem Subservice.withDeps_active (s : Subservice) (d : List Subservice) :
    (s.withDeps d).active = s.active := by
  cases s
  rfl

@[simp] theorem Subservice.withDeps_fullname (s : Subservice) (d : List Subservice) :
    (s.withDeps d).fullname = s.fullname := by
  cases s
  rfl

theorem update_metrics_self_deps (s : Subservice) (st : Store) :
    ((update_metrics_self s st).1).dependencies = s.dependencies := by
  rcases s with ⟨cls, typ, nm, bk, imp, act, hs, fn, p, syms, psyms, deps⟩
  cases cls <;> rfl

theorem update_metrics_self_fullname (s : Subservice) (st : Store) :
    ((update_metrics_self s st).1).fullname = s.fullname := by
  rcases s with ⟨cls, typ, nm, bk, imp, act, hs, fn, p, syms, psyms, deps⟩
  cases cls <;> rfl

/-- Unfolding of update_metrics through the result of the self update. -/
theorem update_metrics_unfold (s : Subservice) (st : Store) :
    update_metrics s st =
      if ((update_metrics_self s st).1).active then
        ((update_metrics_self s st).1).withDeps
            (update_metrics_list s.dependencies (update_metrics_self s st).2).1
          |> (fun s3 => (s3, (update_metrics_list s.dependencies (update_metrics_self s st).2).2.1,
              ((update_metrics_self s st).1).fullname ::
                (update_metrics_list s.dependencies (update_metrics_self s st).2).2.2))
      else ((update_metrics_self s st).1, (update_metrics_self s st).2,
        [((update_metrics_self s st).1).fullname]) := by
  rcases s with ⟨cls, typ, nm, bk, imp, act, hs, fn, p, syms, psyms, deps⟩
  show (match update_metrics_self (.mk cls typ nm bk imp act hs fn p syms psyms deps) st with
    | (s2, st2) =>
      if s2.active then
        match update_metrics_list deps st2 with
        | (deps2, st3, tr) => (s2.withDeps deps2, st3, s2.fullname :: tr)
      else (s2, st2, [s2.fullname])) = _
  rcases hms : update_metrics_self (.mk cls typ nm bk imp act hs fn p syms psyms deps) st
    with ⟨s2, st2⟩
  rcases hml : update_metrics_list deps st2 with ⟨deps2, st3, tr⟩
  simp only [hms, hml, Subservice.dependencies_mk]

/-- If a node turns out inactive after its own metric update, the whole
walk stops there: store and node as the self update left them, refresh
trace containing only this node. -/
theorem update_metrics_inactive (s : Subservice) (st : Store)
    (h : ((update_metrics_self s st).1).active = false) :
    update_metrics s st =
      ((update_metrics_self s st).1, (update_metrics_self s st).2,
        [((update_metrics_self s st).1).fullname]) := by
  rw [update_metrics_unfold, h]
  rfl

/-- The active flag of a node after the full metric walk is the one its own
metric update computed. -/
theorem update_metrics_active (s : Subservice) (st : Store) :
    ((update_metrics s st).1).active = ((update_metrics_self s st).1).active := by
  rw [update_metrics_unfold]
  by_cases h : ((update_metrics_self s st).1).active
  · simp [h]
  · simp [h]

/-- The active flag a VM self update computes: the most recent sample of
the state buffer of the vm raw scope compared to Running. -/
theorem update_metrics_self_vm (s : Subservice) (st : Store)
    (hcls : s.cls = SClass.vm) :
    ((update_metrics_self s st).1).active =
      decide ((getPathRB st [s.backend ++ "/vms", s.name] "state").top
        = some (SVal.str "Running")) := by
  rcases s with ⟨cls, typ, nm, bk, imp, act, hs, fn, p, syms, psyms, deps⟩
  simp only [Subservice.cls_mk] at hcls
  subst hcls
  rfl

/-- The active flag a KBNet self update computes. -/
theorem update_metrics_self_kb (s : Subservice) (st : Store)
    (hcls : s.cls = SClass.kbnet) :
    ((update_metrics_self s st).1).active =
      decide ((getPathRB st [s.backend ++ "/gnmi", s.name] "status").top
        = some (SVal.str "synced")) := by
  rcases s with ⟨cls, typ, nm, bk, imp, act, hs, fn, p, syms, psyms, deps⟩
  simp only [Subservice.cls_mk] at hcls
  subst hcls
  rfl

theorem mem_dkeys_dinsert {α : Type} (k x : String) (v : α) (d : List (String × α)) :
    x ∈ dkeys (dinsert k v d) ↔ x = k ∨ x ∈ dkeys d := by
  induction d with
  | nil => simp [dinsert, dkeys]
  | cons kv rest ih =>
    rcases kv with ⟨k2, v2⟩
    by_cases h : k2 = k
    · subst h
      simp [dinsert, dkeys]
    · simp only [dinsert, if_neg h, dkeys, List.map_cons, List.mem_cons] at ih ⊢
      rw [ih]
      tauto

theorem mem_dkeys_dupdate_left {α : Type} (e : List (String × α)) :
    ∀ (d : List (String × α)) (x : String), x ∈ dkeys d → x ∈ dkeys (dupdate d e) := by
  induction e with
  | nil => intro d x h; exact h
  | cons kv rest ih =>
    intro d x h
    show x ∈ dkeys (dupdate (dinsert kv.1 kv.2 d) rest)
    exact ih _ x ((mem_dkeys_dinsert _ _ _ _).mpr (Or.inr h))

theorem mem_dkeys_dupdate_right {α : Type} (e : List (String × α)) :
    ∀ (d : List (String × α)) (x : String), x ∈ dkeys e → x ∈ dkeys (dupdate d e) := by
  induction e with
  | nil => intro d x h; cases h
  | cons kv rest ih =>
    intro d x h
    show x ∈ dkeys (dupdate (dinsert kv.1 kv.2 d) rest)
    rcases List.mem_cons.mp h with h1 | h2
    · exact mem_dkeys_dupdate_left rest _ x
        ((mem_dkeys_dinsert _ _ _ _).mpr (Or.inl h1))
    · exact ih _ x h2

mutual

/-- Every fullname of the subtree receives an entry in the health-score
dict of update_symptoms: symptom evaluation and scoring visit every node,
whatever the active flags are. -/
theorem update_symptoms_covers (s : Subservice) (st : Store) :
    ∀ x ∈ all_fullnames s, x ∈ dkeys (update_symptoms s st).2.2 := by
  match s with
  | .mk cls typ nm bk imp act hs fn p syms psyms deps =>
    intro x hx
    rw [update_symptoms_eq]
    show x ∈ dkeys (dinsert _ _ (children_scores_dict st _))
    rw [mem_dkeys_dinsert]
    simp only [all_fullnames, List.mem_cons] at hx
    rcases hx with hx | hx
    · exact Or.inl (by simpa using hx)
    · refine Or.inr ?_
      show x ∈ dkeys (List.foldl _ [] (Subservice.mk cls typ nm bk imp act hs
        fn p syms psyms deps).dependencies)
      rw [Subservice.dependencies_mk]
      exact update_symptoms_covers_list deps st [] x (Or.inl hx)

/-- List form of the coverage lemma, generalised over the accumulated
score dict. -/
theorem update_symptoms_covers_list (l : List Subservice) (st : Store) :
    ∀ (acc : List (String × Int)) (x : String),
      (x ∈ all_fullnames_list l ∨ x ∈ dkeys acc) →
      x ∈ dkeys (l.foldl (fun d c => dupdate d (update_symptoms c st).2.2) acc) := by
  match l with
  | [] =>
    intro acc x hx
    rcases hx with hx | hx
    · cases hx
    · exact hx
  | c :: rest =>
    intro acc x hx
    simp only [List.foldl_cons]
    apply update_symptoms_covers_list rest st (dupdate acc (update_symptoms c st).2.2) x
    rcases hx with hx | hx
    · rcases List.mem_append.mp (by simpa [all_fullnames_list] using hx) with h1 | h2
      · exact Or.inr (mem_dkeys_dupdate_right _ acc x (update_symptoms_covers c st x h1))
      · exact Or.inl h2
    · exact Or.inr (mem_dkeys_dupdate_left _ acc x hx)

end

/-- C7: after its metric refresh a VM node is active iff the most recent
sample of the state buffer of its hypervisor raw scope equals Running, and
a KBNet node iff the status sample equals synced (stated under the
assumption that the buffer is non-empty, since the source reads its top
sample); whenever the self update leaves a node inactive, the refresh of
its whole dependency subtree is skipped that cycle (the walk returns right
there, having refreshed only this node); and update_symptoms still
evaluates the node and all of its dependencies (every fullname of the
subtree gets a health-score entry). -/
theorem c7_active_and_skip (s : Subservice) (st : Store) :
    (s.cls = SClass.vm → s.backend = "virtualbox" →
      (getPathRB st ["virtualbox/vms", s.name] "state").samples ≠ [] →
      ((update_metrics s st).1).active =
        decide ((getPathRB st ["virtualbox/vms", s.name] "state").top
          = some (SVal.str "Running"))) ∧
    (s.cls = SClass.kbnet → s.backend = "vpp" →
      (getPathRB st ["vpp/gnmi", s.name] "status").samples ≠ [] →
      ((update_metrics s st).1).active =
        decide ((getPathRB st ["vpp/gnmi", s.name] "status").top
          = some (SVal.str "synced"))) ∧
    (((update_metrics_self s st).1).active = false →
      (update_metrics s st).2.2 = [s.fullname] ∧
      ((update_metrics s st).1).dependencies = s.dependencies) ∧
    (∀ x ∈ all_fullnames s, x ∈ dkeys (update_symptoms s st).2.2) := by
  refine ⟨?_, ?_, ?_, update_symptoms_covers s st⟩
  · intro hcls hbk _
    rw [update_metrics_active, update_metrics_self_vm s st hcls, hbk]
    rfl
  · intro hcls hbk _
    rw [update_metrics_active, update_metrics_self_kb s st hcls, hbk]
    rfl
  · intro h
    rw [update_metrics_inactive s st h]
    exact ⟨by rw [update_metrics_self_fullname], by rw [update_metrics_self_deps]⟩

/-- A concrete powered-off VM node for the C7 witness. -/
def c7_vm : Subservice :=
  .mk .vm "vm" "vm1" "virtualbox" true true 100
    "/node[name=h]/vm[name=vm1]" "/node/vm" [] []
    [.mk .plain "cpu" "" "" true true 100
      "/node[name=h]/vm[name=vm1]/cpu" "/node/vm/cpu" [] [] []]

/-- A concrete store where the vm state reads PoweredOff. -/
def c7_store : Store :=
  [("virtualbox/vms", Val.dict
      [("vm1", Val.dict [("state", Val.rb ⟨[SVal.str "PoweredOff"]⟩)])]),
   ("/node/vm", Val.dict
      [("vm1", Val.dict [("/node/vm", Val.dict [("active", Val.rb ⟨[]⟩)])])])]

/-- Witness for C7: the powered-off VM ends inactive, its child cpu node is
not refreshed, and both fullnames still receive health-score entries. -/
theorem c7_active_and_skip_witness :
    ((update_metrics c7_vm c7_store).1).active = false ∧
    (update_metrics c7_vm c7_store).2.2 = ["/node[name=h]/vm[name=vm1]"] ∧
    ((update_metrics c7_vm c7_store).1).dependencies = c7_vm.dependencies ∧
    "/node[name=h]/vm[name=vm1]" ∈ dkeys (update_symptoms c7_vm c7_store).2.2 ∧
    "/node[name=h]/vm[name=vm1]/cpu" ∈ dkeys (update_symptoms c7_vm c7_store).2.2 := by
  have h := c7_active_and_skip c7_vm c7_store
  have hact : ((update_metrics c7_vm c7_store).1).active = false := by
    rw [h.1 rfl rfl (by decide)]
    decide
  have hskip := h.2.2.1 (by decide)
  exact ⟨hact, hskip.1, hskip.2,
    h.2.2.2 _ (by decide), h.2.2.2 _ (by decide)⟩

/-- Phases of one engine tick. -/
inductive Phase where
  | input
  | reconcile
  | refresh
  | aggregate
  | publish
deriving DecidableEq, Repr

/-- Rank of a phase in the tick order. -/
def phase_rank : Phase → Nat
  | .input => 0
  | .reconcile => 1
  | .refresh => 2
  | .aggregate => 3
  | .publish => 4

/-- Transcription of the statement order of HealthEngine.update_health
(health.py lines 154 to 157): reconcile the dependency graph, then refresh
the metrics from the root, then aggregate symptoms and scores (the three
calls of Engine.update_health above, in the order they are sequenced). -/
def update_health_phases : List Phase := [.reconcile, .refresh, .aggregate]

/-- Transcription of the statement order of DXAgent.process (dxagent.py
lines 80 to 95): fetch input, run update_health to completion, then write
the snapshot to the shared buffer if shared memory is enabled. -/
def process_phases (disable_shm : Bool) : List Phase :=
  [Phase.input] ++ update_health_phases ++
    (if disable_shm then [] else [Phase.publish])

/-- C8: within every engine cycle graph reconciliation completes before
metric refresh begins, refresh completes before symptom aggregation, and
publication to the shared buffer happens only after update_health has
returned: the phases of one process tick occur in strictly increasing
order, so no phase ever starts between two earlier ones. -/
theorem c8_phase_order (disable_shm : Bool) :
    List.Pairwise (fun a b => phase_rank a < phase_rank b)
      (process_phases disable_shm) ∧
    process_phases false =
      [Phase.input, Phase.reconcile, Phase.refresh, Phase.aggregate,
       Phase.publish] := by
  cases disable_shm <;> exact ⟨by decide, by decide⟩

/-- Modelled from the spec: Severity (agent/core/rbuffer.py, not in the
sources) is the closed enumeration green, orange, red (spec 3 and 4.A),
looked up by the rule loader from the upper-cased severity column; an
unknown name raises the KeyError the loader catches. -/
inductive Severity where
  | green
  | orange
  | red
deriving DecidableEq, Repr

/-- Upper-casing of a severity name, embedding the Python str.upper call
of the loader (severity names are plain ASCII words). -/
def str_upper (s : String) : String := String.mk (s.data.map Char.toUpper)

/-- Severity lookup by upper-cased name, none for an unknown name. -/
def severity_of_name (s : String) : Option Severity :=
  match str_upper s with
  | "GREEN" => some .green
  | "ORANGE" => some .orange
  | "RED" => some .red
  | _ => none

/-- One row of the rule file: name, path, severity, rule text (spec 6). -/
structure RuleRow where
  name : String
  path : String
  severity : String
  rule : String
deriving DecidableEq, Repr

/-- Transcription of HealthEngine's rule file reader (health.py lines 48 to
71), over a modelled Symptom constructor: for each row, an unknown severity
name is logged and the row skipped; then the Symptom constructor parses the
rule text — symptoms.py is not in the sources, and per spec 7 (ParseError)
it is modelled from the spec as able to fail on unparseable text, the
failure mode the imported RuleException and the commented-out guard in
health.py point at; since that guard is commented out, the failure escapes
the loader (Except.error) instead of being logged; a constructed symptom
rejected by the safe-rule whitelist check (unresolvable identifier, spec
4.E) is logged and the row skipped; the remaining rows are appended to the
compiled argument list. parses and safe abstract the two checks of the
missing symptoms.py over the rule text. -/
def read_rule_file (parses : String → Bool) (safe : String → Bool) :
    List RuleRow → Except String (List RuleRow × List String)
  | [] => .ok ([], [])
  | r :: rest =>
    match severity_of_name r.severity with
    | none =>
      (read_rule_file parses safe rest).map
        (fun a => (a.1, ("Invalid rule Severity: " ++ r.severity) :: a.2))
    | some _ =>
      if parses r.rule then
        if safe r.rule then
          (read_rule_file parses safe rest).map (fun a => (r :: a.1, a.2))
        else
          (read_rule_file parses safe rest).map
            (fun a => (a.1, ("Invalid rule: " ++ r.rule) :: a.2))
      else .error ("RuleException: invalid rule syntax: " ++ r.rule)

/-- A parser model that rejects one concrete rule text. -/
def c6_parses : String → Bool := fun r => decide (r ≠ "cpu_idle <")

/-- A rule file with one row of valid severity but unparseable rule text. -/
def c6_rows : List RuleRow :=
  [⟨"r1", "/node/bm/cpu", "red", "cpu_idle <"⟩]

/-- Counterexample to C6 as stated: on a row whose rule text does not
parse, rule loading propagates the constructor exception out of the loader
(aborting engine startup) instead of logging and skipping the row. -/
theorem c6_counterexample :
    read_rule_file c6_parses (fun _ => true) c6_rows =
      .error "RuleException: invalid rule syntax: cpu_idle <" := rfl

/-- C6 amended: when every rule text of the file parses, loading never
fails: rows with an unknown severity name or an unsafe rule are logged and
skipped — one log line each — loading continues past them, and exactly the
rows passing both checks are kept, in order. -/
theorem c6_rule_loading (parses safe : String → Bool) (rows : List RuleRow)
    (h : ∀ r ∈ rows, parses r.rule = true) :
    ∃ accepted logs,
      read_rule_file parses safe rows = .ok (accepted, logs) ∧
      accepted = rows.filter
        (fun r => (severity_of_name r.severity).isSome && safe r.rule) ∧
      accepted.length + logs.length = rows.length := by
  induction rows with
  | nil => exact ⟨[], [], rfl, rfl, rfl⟩
  | cons r rest ih =>
    have hr := h r (List.mem_cons_self r rest)
    obtain ⟨acc, logs, heq, hacc, hlen⟩ :=
      ih (fun x hx => h x (List.mem_cons_of_mem r hx))
    cases hsev : severity_of_name r.severity with
    | none =>
      refine ⟨acc, ("Invalid rule Severity: " ++ r.severity) :: logs, ?_, ?_, ?_⟩
      · simp [read_rule_file, hsev, heq, Except.map]
      · simp [List.filter_cons, hsev, hacc]
      · simp only [List.length_cons]
        omega
    | some sev =>
      by_cases hsafe : safe r.rule
      · refine ⟨r :: acc, logs, ?_, ?_, ?_⟩
        · simp [read_rule_file, hsev, hr, hsafe, heq, Except.map]
        · simp [List.filter_cons, hsev, hsafe, hacc]
        · simp only [List.length_cons]
          omega
      · refine ⟨acc, ("Invalid rule: " ++ r.rule) :: logs, ?_, ?_, ?_⟩
        · simp [read_rule_file, hsev, hr, hsafe, heq, Except.map]
        · simp [List.filter_cons, hsev, hsafe, hacc]
        · simp only [List.length_cons]
          omega

/-- Witness for the amended C6 at a concrete three-row file: one accepted
row, one unknown severity, one unsafe rule. -/
theorem c6_rule_loading_witness :
    ∃ accepted logs,
      read_rule_file (fun _ => true) (fun r => decide (r ≠ "os.path < 1"))
        [⟨"r1", "/node/bm/cpu", "red", "cpu_idle.top < 5"⟩,
         ⟨"r2", "/node/bm/cpu", "purple", "cpu_idle.top < 5"⟩,
         ⟨"r3", "/node/bm/cpu", "orange", "os.path < 1"⟩] = .ok (accepted, logs) ∧
      accepted = List.filter
        (fun r => (severity_of_name r.severity).isSome &&
          decide (r.rule ≠ "os.path < 1"))
        [⟨"r1", "/node/bm/cpu", "red", "cpu_idle.top < 5"⟩,
         ⟨"r2", "/node/bm/cpu", "purple", "cpu_idle.top < 5"⟩,
         ⟨"r3", "/node/bm/cpu", "orange", "os.path < 1"⟩] ∧
      accepted.length + logs.length = 3 :=
  c6_rule_loading (fun _ => true) (fun r => decide (r ≠ "os.path < 1")) _
    (fun _ _ => rfl)
